import Mathlib

/-!
Verification of the batch-recall plugin (`src/index.ts`).

The development shallowly embeds the plugin's core:
* the message store and the eviction policy (`cleanupByTime`, `cleanupByCount`,
  `runCleanup`),
* the recall executor (`recallMessages`),
* the per-channel task registry with cooperative cancellation
  (`startRecall`, `queryDone`, `iterate`, `stop`).

Asynchronous JavaScript is modelled as a deterministic state machine whose
steps correspond to the code between suspension points; `Date.now()` and the
remote `bot.deleteMessage` outcome are explicit inputs.
-/

namespace BatchRecall

/-- One row of the `messages` table (`interface Message`, index.ts lines 20-25).
`timestamp` is milliseconds since epoch. -/
structure Message where
  messageId : String
  userId : String
  channelId : String
  timestamp : Nat
deriving DecidableEq, Repr

/-- The `messages` table: a list of rows.  `messageId` is the primary key, so a
well-formed table satisfies `NodupIds`. -/
abbrev Store := List Message

/-- Primary-key invariant of the `messages` table: `messageId` values are
pairwise distinct (index.ts line 102, `primary: 'messageId'`). -/
def NodupIds (s : Store) : Prop :=
  (s.map Message.messageId).Nodup

instance : DecidablePred NodupIds := fun s =>
  inferInstanceAs (Decidable (s.map Message.messageId).Nodup)

/-- All records of one `(userId, channelId)` pair, in store order
(the `.where({ channelId, userId })` filter of index.ts lines 206-208). -/
def pairMsgs (u c : String) (s : Store) : Store :=
  s.filter (fun m => decide (m.userId = u ∧ m.channelId = c))

/-- The distinct `(userId, channelId)` pairs present in the store
(the `groupBy(['userId','channelId'])` query of index.ts lines 200-203). -/
def distinctPairs (s : Store) : List (String × String) :=
  (s.map (fun m => (m.userId, m.channelId))).dedup

/-- Model of `ctx.database.remove` with a `messageId: { $in: ids }` filter: removes every
row whose id is in `ids` and reports the number of matched rows. -/
def dbRemoveByIds (ids : List String) (s : Store) : Store × Nat :=
  (s.filter (fun m => decide (m.messageId ∉ ids)),
   (s.filter (fun m => decide (m.messageId ∈ ids))).length)

/-- The `orderBy('timestamp', 'desc')` comparison: `a` may come before `b`
when `b`'s timestamp is not larger. -/
def tsGE (a b : Message) : Prop := b.timestamp ≤ a.timestamp

instance : DecidableRel tsGE := fun a b =>
  inferInstanceAs (Decidable (b.timestamp ≤ a.timestamp))

instance : IsTotal Message tsGE :=
  ⟨fun a b => (Nat.le_total b.timestamp a.timestamp).imp id id⟩

instance : IsTrans Message tsGE :=
  ⟨fun _ _ _ h1 h2 => Nat.le_trans h2 h1⟩

/-- The query ordering `orderBy('timestamp', 'desc')`: a stable sort by descending timestamp. -/
def sortDesc (s : Store) : Store :=
  s.insertionSort tsGE

/-- Embeds `cleanupByTime` (index.ts lines 185-191): delete every record strictly older
than `now - H * 3600000` and report the matched count.  `now` is the
`Date.now()` observed at the start of the sweep and `H` is
`config.maxMessageRetentionHours`.  The cutoff is computed in `Int` because the
JavaScript subtraction may go negative. -/
def cleanupByTime (now H : Nat) (s : Store) : Store × Nat :=
  let cutoff : Int := (now : Int) - (H : Int) * 3600000
  (s.filter (fun m => decide (¬ ((m.timestamp : Int) < cutoff))),
   (s.filter (fun m => decide ((m.timestamp : Int) < cutoff))).length)

/-- One iteration of the `for (const {userId, channelId} of pairs)` loop of
`cleanupByCount` (index.ts lines 205-224): fetch the pair's records ordered by
descending timestamp; when more than `K = config.maxMessagesPerUser` exist,
delete every record beyond position `K` by id. -/
def cleanupByCountStep (K : Nat) (s : Store) (p : String × String) : Store × Nat :=
  let msgs := sortDesc (pairMsgs p.1 p.2 s)
  if msgs.length ≤ K then (s, 0)
  else
    dbRemoveByIds ((msgs.drop K).map Message.messageId) s

/-- Embeds `cleanupByCount` (index.ts lines 197-227): sweep every distinct
`(userId, channelId)` pair, accumulating the number of removed rows. -/
def cleanupByCount (K : Nat) (s : Store) : Store × Nat :=
  (distinctPairs s).foldl
    (fun acc p =>
      let r := cleanupByCountStep K acc.1 p
      (r.1, acc.2 + r.2))
    (s, 0)

/-- Embeds `runCleanup` (index.ts lines 233-248).  The code launches `cleanupByTime`
and `cleanupByCount` with `Promise.all`; both bodies run to their first store
operation in launch order on a single-threaded event loop, so the age sweep's
single `remove` is dispatched before any query of the count sweep.  The model
linearises the run accordingly: age sweep first, then count sweep; the two
counts are summed. -/
def runCleanup (now K H : Nat) (s : Store) : Store × Nat :=
  let t := cleanupByTime now H s
  let c := cleanupByCount K t.1
  (c.1, t.2 + c.2)

/-- Embeds `recallMessages` (index.ts lines 146-158).  For each id the code awaits
`session.bot.deleteMessage(channelId, id)` and, on success and when storage is
enabled, removes the local record; `Promise.allSettled` collects every
outcome, counting fulfilled promises as successes and rejected ones as
failures.  `delOk channelId id` is the remote operation's outcome (`false`
models a `RemoteDeleteError`).  Returns (store, success, failed). -/
def recallMessages (delOk : String → String → Bool) (storageEnabled : Bool)
    (cid : String) (s : Store) : List String → Store × Nat × Nat
  | [] => (s, 0, 0)
  | id :: rest =>
    let s1 := if delOk cid id then
                (if storageEnabled then s.filter (fun m => decide (m.messageId ≠ id)) else s)
              else s
    let r := recallMessages delOk storageEnabled cid s1 rest
    if delOk cid id then (r.1, r.2.1 + 1, r.2.2) else (r.1, r.2.1, r.2.2 + 1)

/-- Outcome of the synchronous prefix of the `recall` action (index.ts lines
260-277): either the quoted-message branch already recalled the quoted ids,
or the request is rejected because storage is disabled (`NoSource`), or the
action proceeds to the store-backed task path. -/
inductive ActionStart
  | quotedDone : Nat → Nat → ActionStart
  | noSource : ActionStart
  | proceed : ActionStart
deriving DecidableEq, Repr

/-- The dispatch at the top of the `recall` action (index.ts lines 262-277):
quoted messages are recalled immediately through the executor, bypassing both
the store and the storage-enabled check; with no quote and storage disabled
the request is rejected; otherwise the task path is taken.  Returns the
outcome, the resulting store and the list of ids attempted remotely. -/
def recallActionStart (storageEnabled : Bool) (quotedIds : List String)
    (delOk : String → String → Bool) (cid : String) (s : Store) :
    ActionStart × Store × List String :=
  if quotedIds.isEmpty then
    if storageEnabled then (.proceed, s, [])
    else (.noSource, s, [])
  else
    let r := recallMessages delOk storageEnabled cid s quotedIds
    (.quotedDone r.2.1 r.2.2, r.1, quotedIds)

/-! ### Association lists

`activeRecallTasks` is a JavaScript `Map` and each value is a JavaScript
`Set`.  Both are modelled as association lists that preserve insertion order:
`Map.set` replaces an existing key in place and appends a fresh key at the
end, `Map.delete` removes the key, `Set.add` appends a fresh element at the
end, `Set.delete` removes it. -/

section Assoc

variable {α β : Type} [DecidableEq α]

/-- Model of `Map.get`. -/
def alookup (k : α) : List (α × β) → Option β
  | [] => none
  | p :: rest => if p.1 = k then some p.2 else alookup k rest

/-- Model of `Map.set`: replace the first binding of `k` in place, or append. -/
def aset (k : α) (v : β) : List (α × β) → List (α × β)
  | [] => [(k, v)]
  | p :: rest => if p.1 = k then (k, v) :: rest else p :: aset k v rest

/-- Model of `Map.delete`. -/
def aerase (k : α) (l : List (α × β)) : List (α × β) :=
  l.filter (fun p => decide (p.1 ≠ k))

end Assoc

/-- The suspension-point structure of one `RecallTask`'s execution
(index.ts lines 278-316): after registration the task awaits its store query
(`querying`); then it runs the sequential loop with the listed message ids
remaining (`looping`); when the loop ends the task has removed itself
(`exited`). -/
inductive Phase
  | querying : Phase
  | looping : List String → Phase
  | exited : Phase
deriving DecidableEq, Repr

/-- One `RecallTask` (index.ts lines 31-36) together with the identity and
bookkeeping the model needs: `tid` is the object identity of the task,
`setRef` the object identity of the `channelTasks` set the task's closure
holds, `aborted` the state of `controller.signal`. -/
structure Task where
  tid : Nat
  channel : String
  setRef : Nat
  aborted : Bool
  total : Nat
  success : Nat
  failed : Nat
  phase : Phase
deriving DecidableEq, Repr

/-- Global plugin state: `registry` is `activeRecallTasks` (channelId to the
identity of its `Set`), `sets` is the heap of `Set` objects (sets are never
garbage-collected in the model, only unlinked), `tasks` holds every task ever
created, `store` the `messages` table.  `nextTid`/`nextSet` are allocation
counters. -/
structure Sys where
  registry : List (String × Nat)
  sets : List (Nat × List Nat)
  tasks : List Task
  store : Store
  nextTid : Nat
  nextSet : Nat
deriving DecidableEq, Repr

/-- Members of the `Set` object with identity `sid` (absent sets read empty). -/
def getMembers (sid : Nat) (sets : List (Nat × List Nat)) : List Nat :=
  (alookup sid sets).getD []

/-- The task object with identity `tid`. -/
def getTask (sys : Sys) (tid : Nat) : Option Task :=
  sys.tasks.find? (fun t => decide (t.tid = tid))

/-- Mutate the task object with identity `tid`. -/
def modifyTask (tid : Nat) (f : Task → Task) (sys : Sys) : Sys :=
  { sys with tasks := sys.tasks.map (fun t => if t.tid = tid then f t else t) }

/-- Model of `Set.add`: append if not already a member. -/
def setAdd (x : Nat) (l : List Nat) : List Nat :=
  if x ∈ l then l else l ++ [x]

/-- Registration prefix of the `recall` action (index.ts lines 279-288):
`channelTasks = activeRecallTasks.get(channelId) || new Set()`, create the
task, `channelTasks.add(task)`, `activeRecallTasks.set(channelId,
channelTasks)`, then suspend on `findMessagesToRecall`.  The new task's
identity is `sys.nextTid`. -/
def startRecall (c : String) (sys : Sys) : Sys :=
  let tid := sys.nextTid
  match alookup c sys.registry with
  | some sid =>
      let t : Task := { tid := tid, channel := c, setRef := sid, aborted := false,
                        total := 0, success := 0, failed := 0, phase := .querying }
      { sys with
        tasks := sys.tasks ++ [t],
        sets := aset sid (setAdd tid (getMembers sid sys.sets)) sys.sets,
        registry := aset c sid sys.registry,
        nextTid := tid + 1 }
  | none =>
      let sid := sys.nextSet
      let t : Task := { tid := tid, channel := c, setRef := sid, aborted := false,
                        total := 0, success := 0, failed := 0, phase := .querying }
      { sys with
        tasks := sys.tasks ++ [t],
        sets := sys.sets ++ [(sid, [tid])],
        registry := aset c sid sys.registry,
        nextTid := tid + 1,
        nextSet := sid + 1 }

/-- The task-removal epilogue (index.ts lines 292-293 and 307-308):
`channelTasks.delete(task)` on the set object the closure holds, then
`if (channelTasks.size === 0) activeRecallTasks.delete(session.channelId)` —
note the key is deleted from the map whenever the *closure's* set became
empty, even if the map currently binds the channel to a different set. -/
def removeSelf (t : Task) (sys : Sys) : Sys :=
  let ms := (getMembers t.setRef sys.sets).filter (fun i => decide (i ≠ t.tid))
  { sys with
    sets := aset t.setRef ms sys.sets,
    registry := if ms.isEmpty then aerase t.channel sys.registry else sys.registry }

/-- User-visible outcome of the candidate query (index.ts lines 288-295). -/
inductive QueryOutcome
  | nothingFound : QueryOutcome
  | proceed : QueryOutcome
deriving DecidableEq, Repr

/-- Resumption after `findMessagesToRecall` returns `ids` (index.ts lines
288-295): set `task.total`; when no candidate was found remove the task again
and reply "未找到可撤回的消息"; otherwise enter the sequential loop. -/
def queryDone (tid : Nat) (ids : List String) (sys : Sys) : Sys × QueryOutcome :=
  match getTask sys tid with
  | some t =>
      if t.phase = Phase.querying then
        if ids.isEmpty then
          (removeSelf t (modifyTask tid
              (fun u => { u with total := ids.length, phase := .exited }) sys),
           .nothingFound)
        else
          (modifyTask tid (fun u => { u with total := ids.length, phase := .looping ids }) sys,
           .proceed)
      else (sys, .proceed)
  | none => (sys, .proceed)

/-- One iteration of the sequential loop (index.ts lines 297-308): check
`task.controller.signal.aborted` first — when set, `break` and run the removal
epilogue; when ids are exhausted the loop ends the same way; otherwise recall
the single head id through `recallMessages` and accumulate the counts.
Returns the new state and the ids attempted in this step. -/
def iterate (delOk : String → String → Bool) (storageEnabled : Bool)
    (tid : Nat) (sys : Sys) : Sys × List String :=
  match getTask sys tid with
  | some t =>
      match t.phase with
      | .looping [] =>
          (removeSelf t (modifyTask tid (fun u => { u with phase := .exited }) sys), [])
      | .looping (id :: rest) =>
          if t.aborted then
            (removeSelf t (modifyTask tid (fun u => { u with phase := .exited }) sys), [])
          else
            let r := recallMessages delOk storageEnabled t.channel sys.store [id]
            (modifyTask tid
               (fun u =>
                 { u with
                   phase := .looping rest
                   success := u.success + r.2.1
                   failed := u.failed + r.2.2 })
               { sys with store := r.1 },
             [id])
      | _ => (sys, [])
  | none => (sys, [])

/-- Reply of `recall.stop` (index.ts lines 320-330). -/
inductive StopResult
  | noActive : StopResult
  | stopped : Nat → StopResult
deriving DecidableEq, Repr

/-- The task ids currently visible for a channel:
`activeRecallTasks.get(channelId)` resolved through the set heap. -/
def channelTasks (c : String) (sys : Sys) : List Nat :=
  match alookup c sys.registry with
  | some sid => getMembers sid sys.sets
  | none => []

/-- Embeds `recall.stop` (index.ts lines 320-330): with no visible task reply
"没有正在进行的撤回操作" and change nothing; otherwise abort every task in the
channel's set, delete the channel's map entry (the set object itself is not
cleared) and report the count. -/
def stop (c : String) (sys : Sys) : Sys × StopResult :=
  let ts := channelTasks c sys
  if ts.isEmpty then (sys, .noActive)
  else
    ({ sys with
       tasks := sys.tasks.map (fun t => if t.tid ∈ ts then { t with aborted := true } else t),
       registry := aerase c sys.registry },
     .stopped ts.length)

/-! ### The recall executor -/

/-- The rows holding a given message id. -/
def recordsOf (id : String) (s : Store) : Store :=
  s.filter (fun m => decide (m.messageId = id))

theorem recallMessages_counts (delOk : String → String → Bool) (se : Bool) (cid : String) :
    ∀ (ids : List String) (s : Store),
      (recallMessages delOk se cid s ids).2.1 + (recallMessages delOk se cid s ids).2.2 =
        ids.length
  | [], _ => rfl
  | id :: rest, s => by
      by_cases h : delOk cid id = true
      · have ih := recallMessages_counts delOk se cid rest
          (if se = true then s.filter (fun m => decide (m.messageId ≠ id)) else s)
        simp only [recallMessages, if_pos h, List.length_cons]
        omega
      · have ih := recallMessages_counts delOk se cid rest s
        simp only [recallMessages, if_neg h, List.length_cons]
        omega

theorem recallMessages_sublist (delOk : String → String → Bool) (se : Bool) (cid : String) :
    ∀ (ids : List String) (s : Store),
      List.Sublist (recallMessages delOk se cid s ids).1 s
  | [], s => List.Sublist.refl s
  | id :: rest, s => by
      by_cases h : delOk cid id = true
      · have ih := recallMessages_sublist delOk se cid rest
          (if se = true then s.filter (fun m => decide (m.messageId ≠ id)) else s)
        simp only [recallMessages, if_pos h]
        refine ih.trans ?_
        by_cases hs : se = true
        · simp only [if_pos hs]
          exact List.filter_sublist s
        · simp only [if_neg hs]
          exact List.Sublist.refl s
      · have ih := recallMessages_sublist delOk se cid rest s
        simp only [recallMessages, if_neg h]
        exact ih

theorem recordsOf_filter_ne {id id0 : String} (h : id ≠ id0) (s : Store) :
    recordsOf id0 (s.filter (fun m => decide (m.messageId ≠ id))) = recordsOf id0 s := by
  unfold recordsOf
  rw [List.filter_filter]
  apply List.filter_congr
  intro m _
  by_cases hm : m.messageId = id0
  · have hne : m.messageId ≠ id := fun e => h (e.symm.trans hm)
    simp [hm, hne]
    exact fun e => h e.symm
  · simp [hm]

theorem recallMessages_failed_frame (delOk : String → String → Bool) (se : Bool)
    (cid : String) (id0 : String) (h0 : delOk cid id0 = false) :
    ∀ (ids : List String) (s : Store),
      recordsOf id0 (recallMessages delOk se cid s ids).1 = recordsOf id0 s
  | [], _ => rfl
  | id :: rest, s => by
      have hstep : recordsOf id0
          (if delOk cid id then
            (if se then s.filter (fun m => decide (m.messageId ≠ id)) else s)
          else s) = recordsOf id0 s := by
        by_cases h : delOk cid id = true
        · have hne : id ≠ id0 := fun e => by rw [e] at h; rw [h0] at h; cases h
          rw [if_pos h]
          by_cases hs : se = true
          · rw [if_pos hs]
            exact recordsOf_filter_ne hne s
          · rw [if_neg hs]
        · rw [if_neg h]
      by_cases h : delOk cid id = true
      · have ih := recallMessages_failed_frame delOk se cid id0 h0 rest
          (if se = true then s.filter (fun m => decide (m.messageId ≠ id)) else s)
        simp only [recallMessages, if_pos h]
        rw [ih]
        rw [if_pos h] at hstep
        exact hstep
      · have ih := recallMessages_failed_frame delOk se cid id0 h0 rest s
        simp only [recallMessages, if_neg h]
        exact ih

theorem recallMessages_success_removed (delOk : String → String → Bool)
    (cid : String) (id0 : String) (h0 : delOk cid id0 = true) :
    ∀ (ids : List String) (s : Store), id0 ∈ ids →
      recordsOf id0 (recallMessages delOk true cid s ids).1 = []
  | [], _, hmem => absurd hmem (List.not_mem_nil id0)
  | id :: rest, s, hmem => by
      rcases List.mem_cons.mp hmem with heq | hrest
      · subst heq
        have hnil : recordsOf id0 (s.filter (fun m => decide (m.messageId ≠ id0))) = [] := by
          simp only [recordsOf, List.filter_filter]
          refine List.filter_eq_nil_iff.mpr ?_
          intro m _
          by_cases hm : m.messageId = id0 <;> simp [hm]
        have hsub : List.Sublist
            (recordsOf id0 (recallMessages delOk true cid
              (s.filter (fun m => decide (m.messageId ≠ id0))) rest).1)
            (recordsOf id0 (s.filter (fun m => decide (m.messageId ≠ id0)))) :=
          List.Sublist.filter _ (recallMessages_sublist delOk true cid rest _)
        rw [hnil] at hsub
        have hres : recordsOf id0 (recallMessages delOk true cid
            (s.filter (fun m => decide (m.messageId ≠ id0))) rest).1 = [] :=
          List.sublist_nil.mp hsub
        simp only [recallMessages, if_pos h0]
        simpa using hres
      · by_cases h : delOk cid id = true
        · have ih := recallMessages_success_removed delOk cid id0 h0 rest
            (if true = true then s.filter (fun m => decide (m.messageId ≠ id)) else s) hrest
          simp only [recallMessages, if_pos h]
          simpa using ih
        · have ih := recallMessages_success_removed delOk cid id0 h0 rest s hrest
          simp only [recallMessages, if_neg h]
          exact ih

/-- C3: for every list of `n` message ids passed to the recall executor, the
returned counts satisfy `success + failed = n`: every id is attempted and
classified independently (the executor folds over the whole list — no
fail-fast), so one id's failure cannot prevent the others from being
counted. -/
theorem claim_C3 (delOk : String → String → Bool) (storageEnabled : Bool)
    (cid : String) (ids : List String) (s : Store) :
    (recallMessages delOk storageEnabled cid s ids).2.1 +
      (recallMessages delOk storageEnabled cid s ids).2.2 = ids.length :=
  recallMessages_counts delOk storageEnabled cid ids s

/-- C10: per-id atomicity of the recall executor — the local record of an id is
removed only when the remote delete for that id succeeded; when the remote
delete fails (`delOk cid id0 = false`) the id's local records survive the call
unchanged, and when it succeeds (with storage enabled) they are gone. -/
theorem claim_C10 (delOk : String → String → Bool) (storageEnabled : Bool)
    (cid : String) (ids : List String) (s : Store) (id0 : String) :
    (delOk cid id0 = false →
       recordsOf id0 (recallMessages delOk storageEnabled cid s ids).1 = recordsOf id0 s) ∧
    (storageEnabled = true → delOk cid id0 = true → id0 ∈ ids →
       recordsOf id0 (recallMessages delOk storageEnabled cid s ids).1 = []) := by
  constructor
  · intro h0
    exact recallMessages_failed_frame delOk storageEnabled cid id0 h0 ids s
  · intro hse h0 hmem
    subst hse
    exact recallMessages_success_removed delOk cid id0 h0 ids s hmem

def delOkW : String → String → Bool := fun _ id => decide (id ≠ "m2")

def storeW : Store :=
  [{ messageId := "m1", userId := "u", channelId := "c", timestamp := 5 },
   { messageId := "m2", userId := "u", channelId := "c", timestamp := 6 }]

theorem claim_C10_witness :
    delOkW ("c") ("m2") = false ∧ delOkW ("c") ("m1") = true ∧ ("m1") ∈ [("m1"), ("m2")] ∧
      recordsOf ("m2") (recallMessages delOkW true ("c") storeW [("m1"), ("m2")]).1 =
        recordsOf ("m2") storeW ∧
      recordsOf ("m1") (recallMessages delOkW true ("c") storeW [("m1"), ("m2")]).1 = [] :=
  ⟨by decide, by decide, by decide,
   (claim_C10 delOkW true ("c") [("m1"), ("m2")] storeW ("m2")).1 (by decide),
   (claim_C10 delOkW true ("c") [("m1"), ("m2")] storeW ("m1")).2 rfl (by decide) (by decide)⟩

/-- C6: with retention disabled and no quoted message the request is rejected
with the `NoSource` reply — no task path is taken, the store is untouched and
no remote delete is attempted; with a quoted message the quoted ids are
recalled through the executor regardless of the storage-enabled flag. -/
theorem claim_C6 (storageEnabled : Bool) (quoted : List String)
    (delOk : String → String → Bool) (cid : String) (s : Store) :
    (storageEnabled = false → quoted = [] →
       recallActionStart storageEnabled quoted delOk cid s = (.noSource, s, [])) ∧
    (quoted ≠ [] →
       recallActionStart storageEnabled quoted delOk cid s =
         (.quotedDone (recallMessages delOk storageEnabled cid s quoted).2.1
            (recallMessages delOk storageEnabled cid s quoted).2.2,
          (recallMessages delOk storageEnabled cid s quoted).1, quoted)) := by
  constructor
  · intro hse hq
    subst hse; subst hq
    rfl
  · intro hq
    have : quoted.isEmpty = false := by
      cases quoted with
      | nil => cases hq rfl
      | cons a l => rfl
    simp [recallActionStart, this]

theorem claim_C6_witness :
    (false = false) ∧ ([("m1")] ≠ ([] : List String)) ∧
      recallActionStart false [] delOkW ("c") storeW = (.noSource, storeW, []) ∧
      recallActionStart false [("m1")] delOkW ("c") storeW =
        (.quotedDone (recallMessages delOkW false ("c") storeW [("m1")]).2.1
           (recallMessages delOkW false ("c") storeW [("m1")]).2.2,
         (recallMessages delOkW false ("c") storeW [("m1")]).1, [("m1")]) :=
  ⟨rfl, by decide,
   (claim_C6 false [] delOkW ("c") storeW).1 rfl rfl,
   (claim_C6 false [("m1")] delOkW ("c") storeW).2 (by decide)⟩

/-! ### The age sweep -/

/-- C9: with `maxMessageRetentionHours = H > 0`, after one age sweep a record
is retained iff its timestamp is not strictly below `now - H * 3600000`
(`now` being the time observed at the start of the sweep): every strictly
older record is deleted, and no record at or after the cutoff is touched by
the age sweep. -/
theorem claim_C9 (now H : Nat) (s : Store) (hH : 0 < H) :
    ∀ m ∈ s,
      (m ∈ (cleanupByTime now H s).1 ↔
        ¬ ((m.timestamp : Int) < (now : Int) - (H : Int) * 3600000)) := by
  intro m hm
  have _ := hH
  constructor
  · intro hmem
    have := (List.mem_filter.mp hmem).2
    simpa using this
  · intro hts
    exact List.mem_filter.mpr ⟨hm, by simpa using hts⟩

theorem claim_C9_witness :
    (0 < 24) ∧
      (∀ m ∈ storeW,
        (m ∈ (cleanupByTime 100000000000 24 storeW).1 ↔
          ¬ ((m.timestamp : Int) < ((100000000000 : Nat) : Int) - ((24 : Nat) : Int) * 3600000))) :=
  ⟨by decide, claim_C9 100000000000 24 storeW (by decide)⟩

/-! ### The count sweep -/

theorem nodupIds_inj {s : Store} (h : NodupIds s) {a b : Message}
    (ha : a ∈ s) (hb : b ∈ s) (hab : a.messageId = b.messageId) : a = b := by
  induction s with
  | nil => cases ha
  | cons m rest ih =>
      simp only [NodupIds, List.map, List.nodup_cons] at h
      rcases List.mem_cons.mp ha with rfl | ha'
      · rcases List.mem_cons.mp hb with rfl | hb'
        · rfl
        · exact absurd (by rw [hab]; exact List.mem_map_of_mem Message.messageId hb') h.1
      · rcases List.mem_cons.mp hb with rfl | hb'
        · exact absurd (by rw [← hab]; exact List.mem_map_of_mem Message.messageId ha') h.1
        · exact ih h.2 ha' hb'

theorem nodupIds_sublist {s t : Store} (hsub : List.Sublist t s) (h : NodupIds s) :
    NodupIds t :=
  List.Nodup.sublist (List.Sublist.map Message.messageId hsub) h

theorem pairMsgs_sublist (u c : String) (s : Store) : List.Sublist (pairMsgs u c s) s :=
  List.filter_sublist s

theorem mem_pairMsgs {u c : String} {s : Store} {m : Message} :
    m ∈ pairMsgs u c s ↔ m ∈ s ∧ m.userId = u ∧ m.channelId = c := by
  simp [pairMsgs, List.mem_filter]

theorem sortDesc_perm (l : Store) : List.Perm (sortDesc l) l :=
  List.perm_insertionSort tsGE l

theorem sortDesc_sorted (l : Store) : List.Sorted tsGE (sortDesc l) :=
  List.sorted_insertionSort tsGE l

theorem mem_distinctPairs {s : Store} {p : String × String} :
    p ∈ distinctPairs s ↔ ∃ m ∈ s, (m.userId, m.channelId) = p := by
  simp [distinctPairs, List.mem_dedup]

theorem pairMsgs_eq_nil_of_not_mem {s : Store} {u c : String}
    (h : (u, c) ∉ distinctPairs s) : pairMsgs u c s = [] := by
  refine List.filter_eq_nil_iff.mpr ?_
  intro m hm
  simp only [decide_eq_true_eq, not_and]
  intro hu hc
  exact absurd (mem_distinctPairs.mpr ⟨m, hm, by rw [hu, hc]⟩) h

theorem pairMsgs_filter (u c : String) (q : Message → Bool) (s : Store) :
    pairMsgs u c (s.filter q) = (pairMsgs u c s).filter q := by
  unfold pairMsgs
  rw [List.filter_filter, List.filter_filter]
  exact List.filter_congr fun a _ => Bool.and_comm _ _

theorem cleanupByCountStep_sublist (K : Nat) (s : Store) (p : String × String) :
    List.Sublist (cleanupByCountStep K s p).1 s := by
  unfold cleanupByCountStep
  by_cases h : (sortDesc (pairMsgs p.1 p.2 s)).length ≤ K
  · rw [if_pos h]
  · rw [if_neg h]
    exact List.filter_sublist s

/-- Every id scheduled for deletion by the pair-`p` step belongs to a record of
pair `p`; with unique ids no other pair's records can match. -/
theorem cleanupByCountStep_frame (K : Nat) (s : Store) (p : String × String)
    (h : NodupIds s) (u c : String) (hne : (u, c) ≠ p) :
    pairMsgs u c (cleanupByCountStep K s p).1 = pairMsgs u c s := by
  unfold cleanupByCountStep
  by_cases hlen : (sortDesc (pairMsgs p.1 p.2 s)).length ≤ K
  · rw [if_pos hlen]
  · rw [if_neg hlen]
    show pairMsgs u c (dbRemoveByIds _ s).1 = pairMsgs u c s
    unfold dbRemoveByIds
    rw [pairMsgs_filter]
    refine List.filter_eq_self.mpr ?_
    intro m hm
    simp only [decide_eq_true_eq]
    intro hmem
    rcases List.mem_map.mp hmem with ⟨y, hy, hyid⟩
    have hym : y ∈ sortDesc (pairMsgs p.1 p.2 s) := List.mem_of_mem_drop hy
    have hyp : y ∈ pairMsgs p.1 p.2 s := ((sortDesc_perm _).mem_iff).mp hym
    have hys : y ∈ s := List.Sublist.mem hyp (pairMsgs_sublist p.1 p.2 s)
    have hmp := mem_pairMsgs.mp hm
    have heq : y = m := nodupIds_inj h hys hmp.1 hyid
    have hthis := mem_pairMsgs.mp hyp
    rw [heq] at hthis
    refine hne ?_
    have hu : u = p.1 := by rw [← hmp.2.1, hthis.2.1]
    have hc : c = p.2 := by rw [← hmp.2.2, hthis.2.2]
    rw [hu, hc]

/-- After the pair-`p` step, pair `p` retains exactly the first `K` entries of
its timestamp-descending ordering (as a multiset). -/
theorem cleanupByCountStep_self (K : Nat) (s : Store) (p : String × String)
    (h : NodupIds s) :
    List.Perm (pairMsgs p.1 p.2 (cleanupByCountStep K s p).1)
      ((sortDesc (pairMsgs p.1 p.2 s)).take K) := by
  set l := pairMsgs p.1 p.2 s with hl
  set msgs := sortDesc l with hmsgs
  unfold cleanupByCountStep
  by_cases hlen : msgs.length ≤ K
  · rw [← hmsgs, if_pos hlen]
    rw [List.take_of_length_le hlen]
    exact ((sortDesc_perm l).symm)
  · rw [← hmsgs, if_neg hlen]
    show List.Perm (pairMsgs p.1 p.2 (dbRemoveByIds ((msgs.drop K).map Message.messageId) s).1) _
    unfold dbRemoveByIds
    rw [pairMsgs_filter, ← hl]
    have hnodup : msgs.Nodup := by
      have : l.Nodup := List.Nodup.of_map Message.messageId (nodupIds_sublist (pairMsgs_sublist p.1 p.2 s) h)
      exact ((sortDesc_perm l).nodup_iff).mpr this
    have hsplit : msgs.take K ++ msgs.drop K = msgs := List.take_append_drop K msgs
    have hdisj : ∀ a ∈ msgs.take K, a ∉ msgs.drop K := by
      have := List.nodup_append.mp (by rw [hsplit]; exact hnodup)
      exact fun a ha hb => this.2.2 ha hb
    have hperm1 : List.Perm (l.filter (fun m => decide (m.messageId ∉ (msgs.drop K).map Message.messageId)))
        ((msgs.take K ++ msgs.drop K).filter (fun m => decide (m.messageId ∉ (msgs.drop K).map Message.messageId))) := by
      refine List.Perm.filter _ ?_
      rw [hsplit]
      exact (sortDesc_perm l).symm
    rw [List.filter_append] at hperm1
    have htake : (msgs.take K).filter (fun m => decide (m.messageId ∉ (msgs.drop K).map Message.messageId)) = msgs.take K := by
      refine List.filter_eq_self.mpr ?_
      intro a ha
      simp only [decide_eq_true_eq]
      intro hmem
      rcases List.mem_map.mp hmem with ⟨y, hy, hyid⟩
      have hys : y ∈ s := by
        have : y ∈ msgs := List.mem_of_mem_drop hy
        exact List.Sublist.mem (((sortDesc_perm l).mem_iff).mp this) (pairMsgs_sublist p.1 p.2 s)
      have has : a ∈ s := by
        have : a ∈ msgs := List.mem_of_mem_take ha
        exact List.Sublist.mem (((sortDesc_perm l).mem_iff).mp this) (pairMsgs_sublist p.1 p.2 s)
      have heq : y = a := nodupIds_inj h hys has hyid
      rw [heq] at hy
      exact hdisj a ha hy
    have hdrop : (msgs.drop K).filter (fun m => decide (m.messageId ∉ (msgs.drop K).map Message.messageId)) = [] := by
      refine List.filter_eq_nil_iff.mpr ?_
      intro a ha
      simp only [decide_eq_true_eq, not_not]
      exact List.mem_map_of_mem Message.messageId ha
    rw [htake, hdrop, List.append_nil] at hperm1
    exact hperm1

/-- Project the accumulating fold of `cleanupByCount` to its store component. -/
def countSweepStores (K : Nat) (L : List (String × String)) (s : Store) : Store :=
  L.foldl (fun st p => (cleanupByCountStep K st p).1) s

theorem countFold_fst (K : Nat) :
    ∀ (L : List (String × String)) (s : Store) (n : Nat),
      (L.foldl (fun acc p =>
        let r := cleanupByCountStep K acc.1 p
        (r.1, acc.2 + r.2)) (s, n)).1 = countSweepStores K L s
  | [], _, _ => rfl
  | p :: L, s, n =>
      countFold_fst K L (cleanupByCountStep K s p).1 (n + (cleanupByCountStep K s p).2)

theorem cleanupByCount_fst (K : Nat) (s : Store) :
    (cleanupByCount K s).1 = countSweepStores K (distinctPairs s) s :=
  countFold_fst K (distinctPairs s) s 0

theorem countSweepStores_sublist (K : Nat) :
    ∀ (L : List (String × String)) (s : Store), List.Sublist (countSweepStores K L s) s
  | [], s => List.Sublist.refl s
  | p :: L, s =>
      List.Sublist.trans (countSweepStores_sublist K L _) (cleanupByCountStep_sublist K s p)

theorem countSweepStores_frame (K : Nat) :
    ∀ (L : List (String × String)) (s : Store), NodupIds s → ∀ u c, (u, c) ∉ L →
      pairMsgs u c (countSweepStores K L s) = pairMsgs u c s
  | [], _, _, _, _, _ => rfl
  | p :: L, s, h, u, c, hmem => by
      have h1 : (u, c) ≠ p := fun e => hmem (e ▸ List.mem_cons_self p L)
      have h2 : (u, c) ∉ L := fun e => hmem (List.mem_cons_of_mem p e)
      show pairMsgs u c (countSweepStores K L (cleanupByCountStep K s p).1) = pairMsgs u c s
      rw [countSweepStores_frame K L (cleanupByCountStep K s p).1
            (nodupIds_sublist (cleanupByCountStep_sublist K s p) h) u c h2]
      exact cleanupByCountStep_frame K s p h u c h1

theorem countSweepStores_spec (K : Nat) :
    ∀ (L : List (String × String)) (s : Store), NodupIds s → L.Nodup → ∀ p ∈ L,
      List.Perm (pairMsgs p.1 p.2 (countSweepStores K L s))
        ((sortDesc (pairMsgs p.1 p.2 s)).take K)
  | [], _, _, _, _, hp => absurd hp (List.not_mem_nil _)
  | q :: L, s, h, hnd, p, hp => by
      have h' : NodupIds (cleanupByCountStep K s q).1 :=
        nodupIds_sublist (cleanupByCountStep_sublist K s q) h
      rcases List.mem_cons.mp hp with rfl | hpL
      · show List.Perm (pairMsgs p.1 p.2 (countSweepStores K L (cleanupByCountStep K s p).1)) _
        rw [countSweepStores_frame K L (cleanupByCountStep K s p).1 h' p.1 p.2
              (by simpa using (List.nodup_cons.mp hnd).1)]
        exact cleanupByCountStep_self K s p h
      · have hq : p ≠ q := fun e => (List.nodup_cons.mp hnd).1 (e ▸ hpL)
        have hframe : pairMsgs p.1 p.2 (cleanupByCountStep K s q).1 = pairMsgs p.1 p.2 s := by
          refine cleanupByCountStep_frame K s q h p.1 p.2 ?_
          intro e
          exact hq (by rcases p with ⟨pu, pc⟩; exact e)
        have ih := countSweepStores_spec K L (cleanupByCountStep K s q).1 h'
          (List.nodup_cons.mp hnd).2 p hpL
        rw [hframe] at ih
        exact ih

/-- Per-pair content of the store after one full count sweep: each pair retains
(as a multiset) exactly the first `K` entries of its timestamp-descending
ordering. -/
theorem cleanupByCount_pair_perm (K : Nat) (s : Store) (h : NodupIds s) (u c : String) :
    List.Perm (pairMsgs u c (cleanupByCount K s).1)
      ((sortDesc (pairMsgs u c s)).take K) := by
  rw [cleanupByCount_fst]
  by_cases hmem : (u, c) ∈ distinctPairs s
  · exact countSweepStores_spec K (distinctPairs s) s h (List.nodup_dedup _) (u, c) hmem
  · have h0 : pairMsgs u c s = [] := pairMsgs_eq_nil_of_not_mem hmem
    have h1 : pairMsgs u c (countSweepStores K (distinctPairs s) s) = [] := by
      have hsub := List.Sublist.filter
        (fun m => decide (m.userId = u ∧ m.channelId = c))
        (countSweepStores_sublist K (distinctPairs s) s)
      have : List.Sublist (pairMsgs u c (countSweepStores K (distinctPairs s) s)) (pairMsgs u c s) := hsub
      rw [h0] at this
      exact List.sublist_nil.mp this
    rw [h0, h1]
    simp [sortDesc]

theorem cleanupByCount_le (K : Nat) (s : Store) (h : NodupIds s) (u c : String) :
    (pairMsgs u c (cleanupByCount K s).1).length ≤ K := by
  rw [(cleanupByCount_pair_perm K s h u c).length_eq]
  exact (List.length_take_le K _).trans (Nat.le_refl K)

/-- Every record a count sweep deletes is no more recent than any record it
retains for the same pair. -/
theorem cleanupByCount_deleted_le (K : Nat) (s : Store) (h : NodupIds s) (u c : String)
    (d : Message) (hd : d ∈ s) (hdel : d ∉ (cleanupByCount K s).1)
    (hdu : d.userId = u) (hdc : d.channelId = c)
    (r : Message) (hr : r ∈ pairMsgs u c (cleanupByCount K s).1) :
    d.timestamp ≤ r.timestamp := by
  have hdl : d ∈ pairMsgs u c s := mem_pairMsgs.mpr ⟨hd, hdu, hdc⟩
  have hdm : d ∈ sortDesc (pairMsgs u c s) := ((sortDesc_perm _).mem_iff).mpr hdl
  have hsplit := List.take_append_drop K (sortDesc (pairMsgs u c s))
  have hdm' : d ∈ (sortDesc (pairMsgs u c s)).take K ∨ d ∈ (sortDesc (pairMsgs u c s)).drop K := by
    rw [← List.mem_append, hsplit]
    exact hdm
  have hrtake : r ∈ (sortDesc (pairMsgs u c s)).take K :=
    ((cleanupByCount_pair_perm K s h u c).mem_iff).mp hr
  rcases hdm' with htake | hdrop
  · exfalso
    have : d ∈ pairMsgs u c (cleanupByCount K s).1 :=
      ((cleanupByCount_pair_perm K s h u c).mem_iff).mpr htake
    exact hdel (List.Sublist.mem this (pairMsgs_sublist u c _))
  · have hsorted : List.Pairwise tsGE ((sortDesc (pairMsgs u c s)).take K ++ (sortDesc (pairMsgs u c s)).drop K) := by
      rw [hsplit]
      exact sortDesc_sorted _
    exact (List.pairwise_append.mp hsorted).2.2 r hrtake d hdrop

/-- A store of 150 records of one `(userA, channelX)` pair, timestamps `0..149`. -/
def bigStore : Store :=
  (List.range 150).map (fun i =>
    { messageId := toString i, userId := ("userA"), channelId := ("channelX"), timestamp := i })

set_option maxRecDepth 10000 in
/-- C1: after one count sweep with `maxMessagesPerUser = K > 0`, every
`(userId, channelId)` pair retains at most `K` records — exactly
`min K n` of its `n` records — and the retained ones are the `K` most recent
by timestamp: every deleted record's timestamp is not later than every
retained record's.  In particular, sweeping 150 records of one pair with
`K = 99` deletes exactly 51 records and the 99 most recent (the last 51..149
by timestamp) survive. -/
theorem claim_C1 :
    (∀ (K : Nat) (s : Store), NodupIds s → 0 < K → ∀ u c : String,
        (pairMsgs u c (cleanupByCount K s).1).length ≤ K ∧
        (pairMsgs u c (cleanupByCount K s).1).length = min K (pairMsgs u c s).length ∧
        (∀ d ∈ s, d ∉ (cleanupByCount K s).1 → d.userId = u → d.channelId = c →
          ∀ r ∈ pairMsgs u c (cleanupByCount K s).1, d.timestamp ≤ r.timestamp)) ∧
    ((cleanupByCount 99 bigStore).2 = 51 ∧ (cleanupByCount 99 bigStore).1 = bigStore.drop 51) := by
  constructor
  · intro K s h _ u c
    refine ⟨cleanupByCount_le K s h u c, ?_, ?_⟩
    · rw [(cleanupByCount_pair_perm K s h u c).length_eq, List.length_take,
        (sortDesc_perm _).length_eq]
    · intro d hd hdel hdu hdc r hr
      exact cleanupByCount_deleted_le K s h u c d hd hdel hdu hdc r hr
  · exact ⟨by decide, by decide⟩

theorem claim_C1_witness :
    NodupIds storeW ∧ 0 < 1 ∧
      ((pairMsgs ("u") ("c") (cleanupByCount 1 storeW).1).length ≤ 1 ∧
       (pairMsgs ("u") ("c") (cleanupByCount 1 storeW).1).length =
         min 1 (pairMsgs ("u") ("c") storeW).length ∧
       (∀ d ∈ storeW, d ∉ (cleanupByCount 1 storeW).1 → d.userId = ("u") → d.channelId = ("c") →
         ∀ r ∈ pairMsgs ("u") ("c") (cleanupByCount 1 storeW).1, d.timestamp ≤ r.timestamp)) :=
  ⟨by decide, by decide, claim_C1.1 1 storeW (by decide) (by decide) ("u") ("c")⟩

/-! ### Idempotence of the full sweep -/

theorem cleanupByTime_noop (now H : Nat) (s : Store)
    (h : ∀ m ∈ s, ¬((m.timestamp : Int) < (now : Int) - (H : Int) * 3600000)) :
    cleanupByTime now H s = (s, 0) := by
  simp only [cleanupByTime]
  rw [List.filter_eq_self.mpr (fun m hm => by simpa using h m hm),
    List.filter_eq_nil_iff.mpr (fun m hm => by simpa using h m hm)]
  rfl

theorem cleanupByTime_mem {now H : Nat} {s : Store} {m : Message}
    (hm : m ∈ (cleanupByTime now H s).1) :
    m ∈ s ∧ ¬((m.timestamp : Int) < (now : Int) - (H : Int) * 3600000) := by
  have h := List.mem_filter.mp hm
  exact ⟨h.1, by simpa using h.2⟩

theorem cleanupByCount_sublist (K : Nat) (s : Store) :
    List.Sublist (cleanupByCount K s).1 s := by
  rw [cleanupByCount_fst]
  exact countSweepStores_sublist K (distinctPairs s) s

theorem countFold_noop (K : Nat) (s : Store)
    (hb : ∀ u c, (pairMsgs u c s).length ≤ K) :
    ∀ (L : List (String × String)) (n : Nat),
      L.foldl (fun acc p =>
        let r := cleanupByCountStep K acc.1 p
        (r.1, acc.2 + r.2)) (s, n) = (s, n)
  | [], _ => rfl
  | p :: L, n => by
      have hstep : cleanupByCountStep K s p = (s, 0) := by
        unfold cleanupByCountStep
        have hlen : (sortDesc (pairMsgs p.1 p.2 s)).length ≤ K := by
          rw [(sortDesc_perm _).length_eq]
          exact hb p.1 p.2
        rw [if_pos hlen]
      show L.foldl _ ((cleanupByCountStep K s p).1, n + (cleanupByCountStep K s p).2) = (s, n)
      rw [hstep]
      exact countFold_noop K s hb L n

theorem cleanupByCount_noop (K : Nat) (s : Store)
    (hb : ∀ u c, (pairMsgs u c s).length ≤ K) :
    cleanupByCount K s = (s, 0) :=
  countFold_noop K s hb (distinctPairs s) 0

theorem runCleanup_idem (now K H : Nat) (s : Store) (h : NodupIds s) :
    runCleanup now K H (runCleanup now K H s).1 = ((runCleanup now K H s).1, 0) := by
  set s1 := (cleanupByTime now H s).1 with hs1d
  have hnodup1 : NodupIds s1 := nodupIds_sublist (List.filter_sublist s) h
  set s2 := (cleanupByCount K s1).1 with hs2d
  have hsub21 : List.Sublist s2 s1 := cleanupByCount_sublist K s1
  have htnoop : cleanupByTime now H s2 = (s2, 0) := by
    refine cleanupByTime_noop now H s2 ?_
    intro m hm
    exact (cleanupByTime_mem (List.Sublist.mem hm hsub21)).2
  have hcnoop : cleanupByCount K s2 = (s2, 0) := by
    refine cleanupByCount_noop K s2 ?_
    intro u c
    exact cleanupByCount_le K s1 hnodup1 u c
  show runCleanup now K H s2 = (s2, 0)
  show ((cleanupByCount K (cleanupByTime now H s2).1).1,
        (cleanupByTime now H s2).2 + (cleanupByCount K (cleanupByTime now H s2).1).2) = (s2, 0)
  rw [htnoop]
  show ((cleanupByCount K s2).1, 0 + (cleanupByCount K s2).2) = (s2, 0)
  rw [hcnoop]
  rfl

/-- C7: the full eviction sweep (age sweep then count sweep, with the same
observed `now`) is idempotent — run twice in succession with no inserts in
between, the second run removes zero records and leaves the store unchanged. -/
theorem claim_C7 (now K H : Nat) (s : Store) (h : NodupIds s) :
    (runCleanup now K H (runCleanup now K H s).1).2 = 0 ∧
    (runCleanup now K H (runCleanup now K H s).1).1 = (runCleanup now K H s).1 := by
  rw [runCleanup_idem now K H s h]
  exact ⟨rfl, rfl⟩

theorem claim_C7_witness :
    NodupIds storeW ∧
      ((runCleanup 100 2 1 (runCleanup 100 2 1 storeW).1).2 = 0 ∧
       (runCleanup 100 2 1 (runCleanup 100 2 1 storeW).1).1 = (runCleanup 100 2 1 storeW).1) :=
  ⟨by decide, claim_C7 100 2 1 storeW (by decide)⟩

/-! ### Association-list lemmas -/

section AssocLemmas

variable {α β : Type} [DecidableEq α]

theorem alookup_aset_self (k : α) (v : β) :
    ∀ l : List (α × β), alookup k (aset k v l) = some v
  | [] => by simp [alookup, aset]
  | p :: rest => by
      by_cases h : p.1 = k
      · simp [alookup, aset, h]
      · simp [alookup, aset, h]
        exact alookup_aset_self k v rest

theorem alookup_aset_ne {k k' : α} (h : k' ≠ k) (v : β) :
    ∀ l : List (α × β), alookup k' (aset k v l) = alookup k' l
  | [] => by
      show alookup k' [(k, v)] = none
      unfold alookup
      rw [if_neg (fun e : k = k' => h e.symm)]
      rfl
  | p :: rest => by
      unfold aset
      by_cases hp : p.1 = k
      · rw [if_pos hp]
        show alookup k' ((k, v) :: rest) = alookup k' (p :: rest)
        unfold alookup
        rw [if_neg (fun e : k = k' => h e.symm),
          if_neg (fun e : p.1 = k' => h (e.symm.trans hp))]
      · rw [if_neg hp]
        show alookup k' (p :: aset k v rest) = alookup k' (p :: rest)
        unfold alookup
        by_cases hp' : p.1 = k'
        · rw [if_pos hp', if_pos hp']
        · rw [if_neg hp', if_neg hp']
          exact alookup_aset_ne h v rest

theorem mem_of_alookup {k : α} {v : β} :
    ∀ {l : List (α × β)}, alookup k l = some v → (k, v) ∈ l
  | [], h => by simp [alookup] at h
  | p :: rest, h => by
      by_cases hp : p.1 = k
      · simp [alookup, hp] at h
        rw [← hp, ← h]
        exact List.mem_cons_self p rest
      · simp [alookup, hp] at h
        exact List.mem_cons_of_mem p (mem_of_alookup h)

theorem alookup_none_forall {k : α} :
    ∀ {l : List (α × β)}, alookup k l = none ↔ ∀ p ∈ l, p.1 ≠ k
  | [] => by simp [alookup]
  | p :: rest => by
      by_cases hp : p.1 = k
      · simp [alookup, hp]
      · simp [alookup, hp, alookup_none_forall]

theorem aset_of_lookup_eq {k : α} {v : β} :
    ∀ {l : List (α × β)}, alookup k l = some v → aset k v l = l
  | [], h => by simp [alookup] at h
  | p :: rest, h => by
      unfold alookup at h
      unfold aset
      by_cases hp : p.1 = k
      · rw [if_pos hp] at h
        rw [if_pos hp]
        injection h with h2
        rw [← hp, ← h2]
      · rw [if_neg hp] at h
        rw [if_neg hp, aset_of_lookup_eq h]

theorem aset_append_of_none {k : α} (v : β) :
    ∀ {l : List (α × β)}, alookup k l = none → aset k v l = l ++ [(k, v)]
  | [], _ => rfl
  | p :: rest, h => by
      by_cases hp : p.1 = k
      · simp [alookup, hp] at h
      · simp [alookup, hp] at h
        simp [aset, hp]
        exact aset_append_of_none v h

theorem mem_aset {p : α × β} {k : α} {v : β} :
    ∀ {l : List (α × β)}, p ∈ aset k v l → p = (k, v) ∨ p ∈ l
  | [], h => by simpa [aset] using h
  | q :: rest, h => by
      by_cases hq : q.1 = k
      · simp [aset, hq] at h
        rcases h with h | h
        · exact Or.inl h
        · exact Or.inr (List.mem_cons_of_mem q h)
      · simp [aset, hq] at h
        rcases h with h | h
        · exact Or.inr (by rw [h]; exact List.mem_cons_self q rest)
        · rcases mem_aset h with h' | h'
          · exact Or.inl h'
          · exact Or.inr (List.mem_cons_of_mem q h')

theorem mem_aset_nodup {p : α × β} {k : α} {v : β} :
    ∀ {l : List (α × β)}, (l.map Prod.fst).Nodup → p ∈ aset k v l →
      p = (k, v) ∨ (p ∈ l ∧ p.1 ≠ k)
  | [], _, h => by simpa [aset] using h
  | q :: rest, hnd, h => by
      simp only [List.map, List.nodup_cons] at hnd
      by_cases hq : q.1 = k
      · simp [aset, hq] at h
        rcases h with h | h
        · exact Or.inl h
        · refine Or.inr ⟨List.mem_cons_of_mem q h, ?_⟩
          intro e
          exact hnd.1 (by rw [← hq] at e; rw [← e]; exact List.mem_map_of_mem Prod.fst h)
      · simp [aset, hq] at h
        rcases h with h | h
        · exact Or.inr ⟨by rw [h]; exact List.mem_cons_self q rest, by rw [h]; exact hq⟩
        · rcases mem_aset_nodup hnd.2 h with h' | h'
          · exact Or.inl h'
          · exact Or.inr ⟨List.mem_cons_of_mem q h'.1, h'.2⟩

theorem keys_aset_of_mem {k : α} {w : β} (v : β) :
    ∀ {l : List (α × β)}, alookup k l = some w →
      (aset k v l).map Prod.fst = l.map Prod.fst
  | [], h => by simp [alookup] at h
  | p :: rest, h => by
      by_cases hp : p.1 = k
      · simp [aset, hp]
      · simp [alookup, hp] at h
        simp [aset, hp]
        exact keys_aset_of_mem v h

theorem mem_aerase {p : α × β} {k : α} {l : List (α × β)} :
    p ∈ aerase k l ↔ p ∈ l ∧ p.1 ≠ k := by
  simp [aerase, List.mem_filter]

theorem alookup_aerase_self (k : α) (l : List (α × β)) :
    alookup k (aerase k l) = none := by
  rw [alookup_none_forall]
  intro p hp
  exact (mem_aerase.mp hp).2

theorem keys_aerase_sublist (k : α) (l : List (α × β)) :
    List.Sublist ((aerase k l).map Prod.fst) (l.map Prod.fst) :=
  List.Sublist.map Prod.fst (List.filter_sublist l)

theorem aerase_aset_none {k : α} (v : β) {l : List (α × β)}
    (h : alookup k l = none) : aerase k (aset k v l) = l := by
  rw [aset_append_of_none v h]
  unfold aerase
  rw [List.filter_append]
  have h1 : l.filter (fun p => decide (p.1 ≠ k)) = l :=
    List.filter_eq_self.mpr (fun p hp => by
      simpa using (alookup_none_forall.mp h) p hp)
  have h2 : ([(k, v)] : List (α × β)).filter (fun p => decide (p.1 ≠ k)) = [] := by
    simp
  rw [h1, h2, List.append_nil]

end AssocLemmas

/-- Injectivity from a nodup projection: two members of a list with the same
image under an injective-on-the-list projection coincide. -/
theorem map_nodup_inj {γ δ : Type} {f : γ → δ} {l : List γ} (h : (l.map f).Nodup)
    {a b : γ} (ha : a ∈ l) (hb : b ∈ l) (hab : f a = f b) : a = b := by
  induction l with
  | nil => cases ha
  | cons m rest ih =>
      simp only [List.map, List.nodup_cons] at h
      rcases List.mem_cons.mp ha with rfl | ha'
      · rcases List.mem_cons.mp hb with rfl | hb'
        · rfl
        · exact absurd (by rw [hab]; exact List.mem_map_of_mem f hb') h.1
      · rcases List.mem_cons.mp hb with rfl | hb'
        · exact absurd (by rw [← hab]; exact List.mem_map_of_mem f ha') h.1
        · exact ih h.2 ha' hb'

theorem mem_setAdd {i x : Nat} {l : List Nat} : i ∈ setAdd x l ↔ i ∈ l ∨ i = x := by
  unfold setAdd
  by_cases h : x ∈ l
  · rw [if_pos h]
    constructor
    · exact Or.inl
    · rintro (hi | rfl)
      · exact hi
      · exact h
  · rw [if_neg h]
    simp [List.mem_append]

theorem self_mem_setAdd (x : Nat) (l : List Nat) : x ∈ setAdd x l :=
  mem_setAdd.mpr (Or.inr rfl)

theorem setAdd_ne_nil (x : Nat) (l : List Nat) : setAdd x l ≠ [] := by
  intro h
  have hx := self_mem_setAdd x l
  rw [h] at hx
  cases hx

theorem getTask_mem {sys : Sys} {tid : Nat} {t : Task} (h : getTask sys tid = some t) :
    t ∈ sys.tasks :=
  List.mem_of_find?_eq_some h

theorem getTask_tid {sys : Sys} {tid : Nat} {t : Task} (h : getTask sys tid = some t) :
    t.tid = tid := by
  have := List.find?_some h
  simpa using this

theorem find?_tid_map (g : Task → Task) (hg : ∀ t, (g t).tid = t.tid) (i : Nat) :
    ∀ l : List Task,
      (l.map g).find? (fun t => decide (t.tid = i)) =
        (l.find? (fun t => decide (t.tid = i))).map g
  | [] => rfl
  | t :: l => by
      by_cases h : t.tid = i
      · rw [List.map_cons, List.find?_cons_of_pos _ (by simp [hg, h]),
          List.find?_cons_of_pos _ (by simp [h]), Option.map_some']
      · rw [List.map_cons, List.find?_cons_of_neg _ (by simp [hg, h]),
          List.find?_cons_of_neg _ (by simp [h])]
        exact find?_tid_map g hg i l

theorem getTask_modifyTask {tid : Nat} {f : Task → Task} (hf : ∀ u, (f u).tid = u.tid)
    (sys : Sys) (i : Nat) :
    getTask (modifyTask tid f sys) i =
      (getTask sys i).map (fun t => if t.tid = tid then f t else t) := by
  unfold getTask modifyTask
  exact find?_tid_map _ (fun t => by by_cases h : t.tid = tid <;> simp [h, hf]) i _

theorem find?_tid_append_fresh (l : List Task) (t : Task)
    (h : ∀ u ∈ l, u.tid ≠ t.tid) :
    (l ++ [t]).find? (fun u => decide (u.tid = t.tid)) = some t := by
  induction l with
  | nil => simp [List.find?]
  | cons a l ih =>
      rw [List.cons_append, List.find?_cons_of_neg _ (by simp [h a (List.mem_cons_self a l)])]
      exact ih (fun u hu => h u (List.mem_cons_of_mem a hu))

/-! ### Computation lemmas for the machine steps -/

theorem getTask_removeSelf (t' : Task) (sys : Sys) (i : Nat) :
    getTask (removeSelf t' sys) i = getTask sys i := rfl

theorem getTask_setStore (sys : Sys) (st : Store) (i : Nat) :
    getTask { sys with store := st } i = getTask sys i := rfl

theorem getTask_modify_self {tid : Nat} {f : Task → Task} {sys : Sys} {t : Task}
    (hf : ∀ u, (f u).tid = u.tid) (hget : getTask sys tid = some t) :
    getTask (modifyTask tid f sys) tid = some (f t) := by
  rw [getTask_modifyTask hf, hget, Option.map_some', if_pos (getTask_tid hget)]

theorem stop_of_empty {c : String} {sys : Sys} (h : channelTasks c sys = []) :
    stop c sys = (sys, StopResult.noActive) := by
  simp only [stop, h]
  rfl

theorem stop_of_nonempty {c : String} {sys : Sys} (h : channelTasks c sys ≠ []) :
    stop c sys =
      ({ sys with
         tasks := sys.tasks.map
           (fun t => if t.tid ∈ channelTasks c sys then { t with aborted := true } else t),
         registry := aerase c sys.registry },
       StopResult.stopped (channelTasks c sys).length) := by
  have hie : ¬ ((channelTasks c sys).isEmpty = true) := by
    cases hts : channelTasks c sys with
    | nil => exact absurd hts h
    | cons a l => simp
  simp only [stop]
  rw [if_neg hie]

theorem iterate_finish {delOk : String → String → Bool} {se : Bool} {tid : Nat}
    {sys : Sys} {t : Task} (hget : getTask sys tid = some t)
    (hph : t.phase = Phase.looping []) :
    iterate delOk se tid sys =
      (removeSelf t (modifyTask tid (fun u => { u with phase := Phase.exited }) sys), []) := by
  simp only [iterate, hget, hph]

theorem iterate_break {delOk : String → String → Bool} {se : Bool} {tid : Nat}
    {sys : Sys} {t : Task} (hget : getTask sys tid = some t)
    {l : List String} (hph : t.phase = Phase.looping l) (hab : t.aborted = true) :
    iterate delOk se tid sys =
      (removeSelf t (modifyTask tid (fun u => { u with phase := Phase.exited }) sys), []) := by
  cases l with
  | nil => simp only [iterate, hget, hph]
  | cons id rest =>
      simp only [iterate, hget, hph]
      rw [if_pos hab]

theorem iterate_proc {delOk : String → String → Bool} {se : Bool} {tid : Nat}
    {sys : Sys} {t : Task} {id : String} {rest : List String}
    (hget : getTask sys tid = some t)
    (hph : t.phase = Phase.looping (id :: rest)) (hab : t.aborted = false) :
    iterate delOk se tid sys =
      (modifyTask tid
        (fun u =>
          { u with
            phase := Phase.looping rest
            success := u.success + (recallMessages delOk se t.channel sys.store [id]).2.1
            failed := u.failed + (recallMessages delOk se t.channel sys.store [id]).2.2 })
        { sys with store := (recallMessages delOk se t.channel sys.store [id]).1 }, [id]) := by
  simp only [iterate, hget, hph]
  rw [if_neg (by rw [hab]; exact Bool.false_ne_true)]

theorem iterate_noop_exited {delOk : String → String → Bool} {se : Bool} {tid : Nat}
    {sys : Sys} {t : Task} (hget : getTask sys tid = some t)
    (hph : t.phase = Phase.exited) :
    iterate delOk se tid sys = (sys, []) := by
  simp only [iterate, hget, hph]

/-- C2: `recall.stop` on a channel with zero visible tasks replies "no active
operation" and changes nothing at all; on a channel with `T > 0` visible tasks
it reports `T`, sets the abort signal of every one of the `T` tasks, removes
the channel's registry entry, and a second `stop` issued immediately after
finds zero active tasks and changes nothing. -/
theorem claim_C2 (c : String) (sys : Sys) :
    (channelTasks c sys = [] → stop c sys = (sys, StopResult.noActive)) ∧
    (channelTasks c sys ≠ [] →
       (stop c sys).2 = StopResult.stopped (channelTasks c sys).length ∧
       (∀ i ∈ channelTasks c sys, ∀ t : Task, getTask sys i = some t →
          getTask (stop c sys).1 i = some { t with aborted := true }) ∧
       alookup c (stop c sys).1.registry = none ∧
       channelTasks c (stop c sys).1 = [] ∧
       stop c (stop c sys).1 = ((stop c sys).1, StopResult.noActive)) := by
  constructor
  · exact stop_of_empty
  · intro h
    have hs := stop_of_nonempty h
    have hreg : alookup c (stop c sys).1.registry = none := by
      rw [hs]
      exact alookup_aerase_self c sys.registry
    have hct : channelTasks c (stop c sys).1 = [] := by
      unfold channelTasks
      rw [hreg]
    refine ⟨by rw [hs], ?_, hreg, hct, stop_of_empty hct⟩
    intro i hi t hget
    rw [hs]
    show getTask { sys with
        tasks := sys.tasks.map
          (fun u => if u.tid ∈ channelTasks c sys then { u with aborted := true } else u),
        registry := aerase c sys.registry } i = _
    unfold getTask
    rw [show ({ sys with
        tasks := sys.tasks.map
          (fun u => if u.tid ∈ channelTasks c sys then { u with aborted := true } else u),
        registry := aerase c sys.registry } : Sys).tasks =
      sys.tasks.map
        (fun u => if u.tid ∈ channelTasks c sys then { u with aborted := true } else u) from rfl]
    rw [find?_tid_map _ (fun u => by by_cases hu : u.tid ∈ channelTasks c sys <;> simp [hu]) i]
    rw [show sys.tasks.find? (fun u => decide (u.tid = i)) = getTask sys i from rfl, hget,
      Option.map_some']
    rw [if_pos (by rw [getTask_tid hget]; exact hi)]

def taskW : Task :=
  { tid := 0, channel := ("c"), setRef := 0, aborted := false,
    total := 2, success := 0, failed := 0, phase := Phase.looping [("m1")] }

def sysW2 : Sys :=
  { registry := [(("c"), 0)], sets := [(0, [0])], tasks := [taskW],
    store := storeW, nextTid := 1, nextSet := 1 }

theorem claim_C2_witness :
    (channelTasks ("c") sysW2 ≠ []) ∧
      ((stop ("c") sysW2).2 = StopResult.stopped (channelTasks ("c") sysW2).length ∧
       (∀ i ∈ channelTasks ("c") sysW2, ∀ t : Task, getTask sysW2 i = some t →
          getTask (stop ("c") sysW2).1 i = some { t with aborted := true }) ∧
       alookup ("c") (stop ("c") sysW2).1.registry = none ∧
       channelTasks ("c") (stop ("c") sysW2).1 = [] ∧
       stop ("c") (stop ("c") sysW2).1 = ((stop ("c") sysW2).1, StopResult.noActive)) :=
  ⟨by decide, (claim_C2 ("c") sysW2).2 (by decide)⟩

/-- C8: cancellation is cooperative and checked before each loop iteration —
once a task's abort signal is set, its next step attempts no message id, the
task exits, and no further iteration runs; a step that begins with the signal
clear processes exactly its head id to completion (the executor call is never
cut short), recording the outcome in the task's counters. -/
theorem claim_C8 (delOk : String → String → Bool) (se : Bool) (tid : Nat) (sys : Sys)
    (t : Task) (hget : getTask sys tid = some t) :
    (∀ l : List String, t.aborted = true → t.phase = Phase.looping l →
       (iterate delOk se tid sys).2 = [] ∧
       (iterate delOk se tid sys).1.store = sys.store ∧
       getTask (iterate delOk se tid sys).1 tid = some { t with phase := Phase.exited } ∧
       iterate delOk se tid (iterate delOk se tid sys).1 = ((iterate delOk se tid sys).1, [])) ∧
    (∀ (id : String) (rest : List String), t.aborted = false →
       t.phase = Phase.looping (id :: rest) →
       (iterate delOk se tid sys).2 = [id] ∧
       (iterate delOk se tid sys).1.store = (recallMessages delOk se t.channel sys.store [id]).1 ∧
       getTask (iterate delOk se tid sys).1 tid =
         some { t with
                phase := Phase.looping rest
                success := t.success + (recallMessages delOk se t.channel sys.store [id]).2.1
                failed := t.failed + (recallMessages delOk se t.channel sys.store [id]).2.2 }) := by
  constructor
  · intro l hab hph
    have hi := @iterate_break delOk se tid sys t hget l hph hab
    have hgt : getTask (iterate delOk se tid sys).1 tid =
        some { t with phase := Phase.exited } := by
      rw [hi]
      show getTask (removeSelf t (modifyTask tid (fun u => { u with phase := Phase.exited }) sys))
        tid = _
      rw [getTask_removeSelf]
      exact @getTask_modify_self tid (fun u => { u with phase := Phase.exited }) sys t
        (fun u => rfl) hget
    refine ⟨by rw [hi], by rw [hi]; rfl, hgt, ?_⟩
    exact iterate_noop_exited hgt rfl
  · intro id rest hab hph
    have hi := @iterate_proc delOk se tid sys t id rest hget hph hab
    refine ⟨by rw [hi], by rw [hi]; rfl, ?_⟩
    rw [hi]
    exact @getTask_modify_self tid
      (fun u =>
        { u with
          phase := Phase.looping rest
          success := u.success + (recallMessages delOk se t.channel sys.store [id]).2.1
          failed := u.failed + (recallMessages delOk se t.channel sys.store [id]).2.2 })
      { sys with store := (recallMessages delOk se t.channel sys.store [id]).1 } t
      (fun u => rfl) (by rw [getTask_setStore]; exact hget)

theorem claim_C8_witness :
    (getTask sysW2 0 = some taskW) ∧ (taskW.aborted = false) ∧
      (taskW.phase = Phase.looping [("m1")]) ∧
      ((iterate delOkW true 0 sysW2).2 = [("m1")] ∧
       (iterate delOkW true 0 sysW2).1.store =
         (recallMessages delOkW true taskW.channel sysW2.store [("m1")]).1 ∧
       getTask (iterate delOkW true 0 sysW2).1 0 =
         some { taskW with
                phase := Phase.looping []
                success := taskW.success +
                  (recallMessages delOkW true taskW.channel sysW2.store [("m1")]).2.1
                failed := taskW.failed +
                  (recallMessages delOkW true taskW.channel sysW2.store [("m1")]).2.2 }) :=
  ⟨by decide, by decide, by decide,
   (claim_C8 delOkW true 0 sysW2 taskW (by decide)).2 ("m1") [] (by decide) (by decide)⟩

/-! ### The registry invariant -/

/-- Well-formedness of the task/registry state.  The externally meaningful
conjuncts are `regNonempty` (a channel key exists only while its set is
non-empty) and `regOwned`/`owned` (every task visible in a set is a live —
not yet exited — task of that set); the rest are bookkeeping (allocation
bounds and key uniqueness) that make the object identities of the model
behave like JavaScript's. -/
structure SysInv (sys : Sys) : Prop where
  tidsNodup : (sys.tasks.map Task.tid).Nodup
  tidBound : ∀ t ∈ sys.tasks, t.tid < sys.nextTid
  setKeysNodup : (sys.sets.map Prod.fst).Nodup
  setKeyBound : ∀ p ∈ sys.sets, p.1 < sys.nextSet
  owned : ∀ p ∈ sys.sets, ∀ i ∈ p.2,
    ∃ t ∈ sys.tasks, t.tid = i ∧ t.setRef = p.1 ∧ t.phase ≠ Phase.exited
  inSet : ∀ t ∈ sys.tasks, t.phase ≠ Phase.exited → t.tid ∈ getMembers t.setRef sys.sets
  regKeysNodup : (sys.registry.map Prod.fst).Nodup
  regNonempty : ∀ e ∈ sys.registry, getMembers e.2 sys.sets ≠ []
  regOwned : ∀ e ∈ sys.registry, ∀ i ∈ getMembers e.2 sys.sets,
    ∃ t ∈ sys.tasks, t.tid = i ∧ t.channel = e.1 ∧ t.setRef = e.2 ∧ t.phase ≠ Phase.exited

instance (sys : Sys) : Decidable (SysInv sys) :=
  decidable_of_iff
    (((sys.tasks.map Task.tid).Nodup) ∧
     (∀ t ∈ sys.tasks, t.tid < sys.nextTid) ∧
     ((sys.sets.map Prod.fst).Nodup) ∧
     (∀ p ∈ sys.sets, p.1 < sys.nextSet) ∧
     (∀ p ∈ sys.sets, ∀ i ∈ p.2,
       ∃ t ∈ sys.tasks, t.tid = i ∧ t.setRef = p.1 ∧ t.phase ≠ Phase.exited) ∧
     (∀ t ∈ sys.tasks, t.phase ≠ Phase.exited → t.tid ∈ getMembers t.setRef sys.sets) ∧
     ((sys.registry.map Prod.fst).Nodup) ∧
     (∀ e ∈ sys.registry, getMembers e.2 sys.sets ≠ []) ∧
     (∀ e ∈ sys.registry, ∀ i ∈ getMembers e.2 sys.sets,
       ∃ t ∈ sys.tasks, t.tid = i ∧ t.channel = e.1 ∧ t.setRef = e.2 ∧ t.phase ≠ Phase.exited))
    ⟨fun h => ⟨h.1, h.2.1, h.2.2.1, h.2.2.2.1, h.2.2.2.2.1, h.2.2.2.2.2.1,
       h.2.2.2.2.2.2.1, h.2.2.2.2.2.2.2.1, h.2.2.2.2.2.2.2.2⟩,
     fun h => ⟨h.tidsNodup, h.tidBound, h.setKeysNodup, h.setKeyBound, h.owned,
       h.inSet, h.regKeysNodup, h.regNonempty, h.regOwned⟩⟩

theorem getMembers_aset_self (sid : Nat) (v : List Nat) (sets : List (Nat × List Nat)) :
    getMembers sid (aset sid v sets) = v := by
  unfold getMembers
  rw [alookup_aset_self]
  rfl

theorem getMembers_aset_ne {sid sid' : Nat} (h : sid' ≠ sid) (v : List Nat)
    (sets : List (Nat × List Nat)) :
    getMembers sid' (aset sid v sets) = getMembers sid' sets := by
  unfold getMembers
  rw [alookup_aset_ne h]

theorem alookup_of_members_ne_nil {sid : Nat} {sets : List (Nat × List Nat)}
    (h : getMembers sid sets ≠ []) : alookup sid sets = some (getMembers sid sets) := by
  unfold getMembers at h ⊢
  cases hl : alookup sid sets with
  | none => exact absurd rfl (hl ▸ h)
  | some v => rfl

/-- The task object created by the `recall` action's registration prefix. -/
def newTask (c : String) (sid tid : Nat) : Task where
  tid := tid
  channel := c
  setRef := sid
  aborted := false
  total := 0
  success := 0
  failed := 0
  phase := Phase.querying

/-- The mutation the empty-result branch applies to its task before removal. -/
def exitQuery (u : Task) : Task :=
  { u with total := 0, phase := Phase.exited }

theorem newTask_tid (c : String) (sid tid : Nat) : (newTask c sid tid).tid = tid := rfl

theorem newTask_channel (c : String) (sid tid : Nat) : (newTask c sid tid).channel = c := rfl

theorem newTask_setRef (c : String) (sid tid : Nat) : (newTask c sid tid).setRef = sid := rfl

theorem removeSelf_registry (t : Task) (sys : Sys) :
    (removeSelf t sys).registry =
      (if ((getMembers t.setRef sys.sets).filter (fun i => decide (i ≠ t.tid))).isEmpty
       then aerase t.channel sys.registry else sys.registry) := rfl

theorem removeSelf_sets (t : Task) (sys : Sys) :
    (removeSelf t sys).sets =
      aset t.setRef ((getMembers t.setRef sys.sets).filter (fun i => decide (i ≠ t.tid)))
        sys.sets := rfl

theorem channelTasks_eq_of {c : String} {sys : Sys} {sid : Nat}
    (h : alookup c sys.registry = some sid) :
    channelTasks c sys = getMembers sid sys.sets := by
  unfold channelTasks
  rw [h]

theorem channelTasks_eq_nil_of {c : String} {sys : Sys}
    (h : alookup c sys.registry = none) : channelTasks c sys = [] := by
  unfold channelTasks
  rw [h]

theorem queryDone_empty {tid : Nat} {sys : Sys} {t : Task}
    (hget : getTask sys tid = some t) (hph : t.phase = Phase.querying) :
    queryDone tid [] sys =
      (removeSelf t (modifyTask tid exitQuery sys), QueryOutcome.nothingFound) := by
  simp only [queryDone, hget, hph]
  rfl

theorem queryDone_nonempty {tid : Nat} {sys : Sys} {t : Task} {id : String} {rest : List String}
    (hget : getTask sys tid = some t) (hph : t.phase = Phase.querying) :
    queryDone tid (id :: rest) sys =
      (modifyTask tid
        (fun u => { u with total := (id :: rest).length, phase := Phase.looping (id :: rest) })
        sys,
       QueryOutcome.proceed) := by
  simp only [queryDone, hget, hph]
  rfl

theorem startRecall_some {c : String} {sys : Sys} {sid : Nat}
    (hl : alookup c sys.registry = some sid) :
    startRecall c sys =
      { sys with
        tasks := sys.tasks ++ [newTask c sid sys.nextTid]
        sets := aset sid (setAdd sys.nextTid (getMembers sid sys.sets)) sys.sets
        registry := aset c sid sys.registry
        nextTid := sys.nextTid + 1 } := by
  simp only [startRecall, hl]
  rfl

theorem startRecall_none {c : String} {sys : Sys}
    (hl : alookup c sys.registry = none) :
    startRecall c sys =
      { sys with
        tasks := sys.tasks ++ [newTask c sys.nextSet sys.nextTid]
        sets := sys.sets ++ [(sys.nextSet, [sys.nextTid])]
        registry := aset c sys.nextSet sys.registry
        nextTid := sys.nextTid + 1
        nextSet := sys.nextSet + 1 } := by
  simp only [startRecall, hl]
  rfl

/-- The store-backed `recall` request in the empty-result case: the task is
registered (index.ts lines 279-286), the candidate query returns no rows, the
task removes itself again (lines 291-295).  The new task's identity is
`sys.nextTid`. -/
def recallRequestEmpty (c : String) (sys : Sys) : Sys × QueryOutcome :=
  queryDone sys.nextTid [] (startRecall c sys)

/-- C5: a store-backed recall request whose candidate query returns zero
messages replies "nothing found" and leaves the task registry as it was:
the channel's map entry and its visible task set are unchanged (the
transiently registered task has removed itself again before the reply), and
the new task is not visible in the channel's set afterwards. -/
theorem claim_C5 (c : String) (sys : Sys) (h : SysInv sys) :
    (recallRequestEmpty c sys).2 = QueryOutcome.nothingFound ∧
    (recallRequestEmpty c sys).1.registry = sys.registry ∧
    channelTasks c (recallRequestEmpty c sys).1 = channelTasks c sys ∧
    sys.nextTid ∉ channelTasks c (recallRequestEmpty c sys).1 := by
  cases hl : alookup c sys.registry with
  | some sid =>
      have hmem_reg : (c, sid) ∈ sys.registry := mem_of_alookup hl
      have hms_ne : getMembers sid sys.sets ≠ [] := h.regNonempty (c, sid) hmem_reg
      have hsets : alookup sid sys.sets = some (getMembers sid sys.sets) :=
        alookup_of_members_ne_nil hms_ne
      have hfresh : sys.nextTid ∉ getMembers sid sys.sets := by
        intro hin
        rcases h.owned (sid, getMembers sid sys.sets) (mem_of_alookup hsets) _ hin with
          ⟨u, hu, hutid, _, _⟩
        exact Nat.lt_irrefl _ (hutid ▸ h.tidBound u hu)
      have hs1 := startRecall_some hl
      have hget : getTask (startRecall c sys) sys.nextTid = some (newTask c sid sys.nextTid) := by
        rw [hs1]
        refine find?_tid_append_fresh sys.tasks (newTask c sid sys.nextTid) ?_
        intro u hu
        exact Nat.ne_of_lt (h.tidBound u hu)
      have hq := queryDone_empty hget rfl
      have hfst : (recallRequestEmpty c sys).1 =
          removeSelf (newTask c sid sys.nextTid)
            (modifyTask sys.nextTid exitQuery (startRecall c sys)) := by
        show (queryDone sys.nextTid [] (startRecall c sys)).1 = _
        rw [hq]
      have hsnd : (recallRequestEmpty c sys).2 = QueryOutcome.nothingFound := by
        show (queryDone sys.nextTid [] (startRecall c sys)).2 = _
        rw [hq]
      have hmidsets : (modifyTask sys.nextTid exitQuery (startRecall c sys)).sets =
          aset sid (setAdd sys.nextTid (getMembers sid sys.sets)) sys.sets := by
        show (startRecall c sys).sets = _
        rw [hs1]
      have hmidreg : (modifyTask sys.nextTid exitQuery (startRecall c sys)).registry =
          sys.registry := by
        show (startRecall c sys).registry = _
        rw [hs1]
        exact aset_of_lookup_eq hl
      have hms2 : getMembers (newTask c sid sys.nextTid).setRef
          (modifyTask sys.nextTid exitQuery (startRecall c sys)).sets =
          setAdd sys.nextTid (getMembers sid sys.sets) := by
        show getMembers sid _ = _
        rw [hmidsets]
        exact getMembers_aset_self _ _ _
      have hms' : (setAdd sys.nextTid (getMembers sid sys.sets)).filter
          (fun i => decide (i ≠ sys.nextTid)) = getMembers sid sys.sets := by
        unfold setAdd
        rw [if_neg hfresh, List.filter_append]
        have h1 : (getMembers sid sys.sets).filter (fun i => decide (i ≠ sys.nextTid)) =
            getMembers sid sys.sets :=
          List.filter_eq_self.mpr (fun i hi => by
            simp only [decide_eq_true_eq]
            exact fun e => hfresh (e ▸ hi))
        have h2 : ([sys.nextTid] : List Nat).filter (fun i => decide (i ≠ sys.nextTid)) = [] := by
          simp
        rw [h1, h2, List.append_nil]
      have hie : (getMembers sid sys.sets).isEmpty = false := by
        cases hgm : getMembers sid sys.sets with
        | nil => exact absurd hgm hms_ne
        | cons a l => rfl
      have hregF : (recallRequestEmpty c sys).1.registry = sys.registry := by
        rw [hfst, removeSelf_registry, hms2]
        simp only [newTask_tid, newTask_channel]
        rw [hms', hie]
        simp only [Bool.false_eq_true, if_false]
        exact hmidreg
      have hsetsF : (recallRequestEmpty c sys).1.sets =
          aset sid (getMembers sid sys.sets)
            (modifyTask sys.nextTid exitQuery (startRecall c sys)).sets := by
        rw [hfst, removeSelf_sets, hms2]
        simp only [newTask_tid, newTask_setRef]
        rw [hms']
      have hlF : alookup c (recallRequestEmpty c sys).1.registry = some sid := by
        rw [hregF]
        exact hl
      have hgmF : getMembers sid (recallRequestEmpty c sys).1.sets =
          getMembers sid sys.sets := by
        rw [hsetsF]
        exact getMembers_aset_self _ _ _
      refine ⟨hsnd, hregF, ?_, ?_⟩
      · rw [channelTasks_eq_of hlF, hgmF, channelTasks_eq_of hl]
      · rw [channelTasks_eq_of hlF, hgmF]
        exact hfresh
  | none =>
      have hs1 := startRecall_none hl
      have hget : getTask (startRecall c sys) sys.nextTid =
          some (newTask c sys.nextSet sys.nextTid) := by
        rw [hs1]
        refine find?_tid_append_fresh sys.tasks (newTask c sys.nextSet sys.nextTid) ?_
        intro u hu
        exact Nat.ne_of_lt (h.tidBound u hu)
      have hq := queryDone_empty hget rfl
      have hfst : (recallRequestEmpty c sys).1 =
          removeSelf (newTask c sys.nextSet sys.nextTid)
            (modifyTask sys.nextTid exitQuery (startRecall c sys)) := by
        show (queryDone sys.nextTid [] (startRecall c sys)).1 = _
        rw [hq]
      have hsnd : (recallRequestEmpty c sys).2 = QueryOutcome.nothingFound := by
        show (queryDone sys.nextTid [] (startRecall c sys)).2 = _
        rw [hq]
      have hsets_none : alookup sys.nextSet sys.sets = none := by
        rw [alookup_none_forall]
        exact fun p hp => Nat.ne_of_lt (h.setKeyBound p hp)
      have hmidsets : (modifyTask sys.nextTid exitQuery (startRecall c sys)).sets =
          aset sys.nextSet [sys.nextTid] sys.sets := by
        show (startRecall c sys).sets = _
        rw [hs1]
        exact (aset_append_of_none _ hsets_none).symm
      have hmidreg : (modifyTask sys.nextTid exitQuery (startRecall c sys)).registry =
          aset c sys.nextSet sys.registry := by
        show (startRecall c sys).registry = _
        rw [hs1]
      have hms2 : getMembers (newTask c sys.nextSet sys.nextTid).setRef
          (modifyTask sys.nextTid exitQuery (startRecall c sys)).sets = [sys.nextTid] := by
        show getMembers sys.nextSet _ = _
        rw [hmidsets]
        exact getMembers_aset_self _ _ _
      have hms' : ([sys.nextTid] : List Nat).filter (fun i => decide (i ≠ sys.nextTid)) = [] := by
        simp
      have hregF : (recallRequestEmpty c sys).1.registry = sys.registry := by
        rw [hfst, removeSelf_registry, hms2]
        simp only [newTask_tid, newTask_channel]
        rw [hms']
        simp only [List.isEmpty_nil, if_true]
        rw [hmidreg]
        exact aerase_aset_none _ hl
      have hlF : alookup c (recallRequestEmpty c sys).1.registry = none := by
        rw [hregF]
        exact hl
      refine ⟨hsnd, hregF, ?_, ?_⟩
      · rw [channelTasks_eq_nil_of hlF, channelTasks_eq_nil_of hl]
      · rw [channelTasks_eq_nil_of hlF]
        exact List.not_mem_nil _

theorem claim_C5_witness :
    SysInv sysW2 ∧
      ((recallRequestEmpty ("c") sysW2).2 = QueryOutcome.nothingFound ∧
       (recallRequestEmpty ("c") sysW2).1.registry = sysW2.registry ∧
       channelTasks ("c") (recallRequestEmpty ("c") sysW2).1 = channelTasks ("c") sysW2 ∧
       sysW2.nextTid ∉ channelTasks ("c") (recallRequestEmpty ("c") sysW2).1) :=
  ⟨by decide, claim_C5 ("c") sysW2 (by decide)⟩


/-! ### Preservation of the registry invariant -/

theorem getTask_unique {sys : Sys} {tid : Nat} {t : Task}
    (hnd : (sys.tasks.map Task.tid).Nodup) (hget : getTask sys tid = some t)
    {u : Task} (hu : u ∈ sys.tasks) (hutid : u.tid = tid) : u = t :=
  map_nodup_inj hnd hu (getTask_mem hget) (by rw [hutid, getTask_tid hget])

theorem map_tid_of_preserve {g : Task → Task} (hg : ∀ u, (g u).tid = u.tid)
    (l : List Task) : (l.map g).map Task.tid = l.map Task.tid := by
  rw [List.map_map]
  exact List.map_congr_left (fun u _ => hg u)

theorem lift_owned_map {l : List Task} {g : Task → Task}
    (hg_tid : ∀ u, (g u).tid = u.tid) (hg_set : ∀ u, (g u).setRef = u.setRef)
    (hg_ph : ∀ u, u.phase ≠ Phase.exited → (g u).phase ≠ Phase.exited)
    {i sid : Nat} :
    (∃ t ∈ l, t.tid = i ∧ t.setRef = sid ∧ t.phase ≠ Phase.exited) →
    ∃ t ∈ l.map g, t.tid = i ∧ t.setRef = sid ∧ t.phase ≠ Phase.exited := by
  rintro ⟨u, hu, h1, h2, h3⟩
  exact ⟨g u, List.mem_map_of_mem g hu,
    by rw [hg_tid, h1], by rw [hg_set, h2], hg_ph u h3⟩

theorem lift_regOwned_map {l : List Task} {g : Task → Task}
    (hg_tid : ∀ u, (g u).tid = u.tid) (hg_set : ∀ u, (g u).setRef = u.setRef)
    (hg_chan : ∀ u, (g u).channel = u.channel)
    (hg_ph : ∀ u, u.phase ≠ Phase.exited → (g u).phase ≠ Phase.exited)
    {i sid : Nat} {c : String} :
    (∃ t ∈ l, t.tid = i ∧ t.channel = c ∧ t.setRef = sid ∧ t.phase ≠ Phase.exited) →
    ∃ t ∈ l.map g, t.tid = i ∧ t.channel = c ∧ t.setRef = sid ∧ t.phase ≠ Phase.exited := by
  rintro ⟨u, hu, h1, h2, h3, h4⟩
  exact ⟨g u, List.mem_map_of_mem g hu,
    by rw [hg_tid, h1], by rw [hg_chan, h2], by rw [hg_set, h3], hg_ph u h4⟩

/-- A task mutation that keeps identity, set reference, channel and liveness
preserves the invariant (covers the `querying → looping` transition and one
loop iteration, including the store write of the iteration). -/
theorem sysInv_modifyKeep {sys : Sys} {tid : Nat} {f : Task → Task} {t : Task}
    (h : SysInv sys) (hget : getTask sys tid = some t) (hne : t.phase ≠ Phase.exited)
    (hf_tid : ∀ u, (f u).tid = u.tid) (hf_set : ∀ u, (f u).setRef = u.setRef)
    (hf_chan : ∀ u, (f u).channel = u.channel) (hf_ph : ∀ u, (f u).phase ≠ Phase.exited)
    (st : Store) :
    SysInv (modifyTask tid f { sys with store := st }) := by
  have hg_tid : ∀ u : Task, ((if u.tid = tid then f u else u) : Task).tid = u.tid := by
    intro u
    by_cases hu : u.tid = tid <;> simp [hu, hf_tid]
  have hg_set : ∀ u : Task, ((if u.tid = tid then f u else u) : Task).setRef = u.setRef := by
    intro u
    by_cases hu : u.tid = tid <;> simp [hu, hf_set]
  have hg_chan : ∀ u : Task, ((if u.tid = tid then f u else u) : Task).channel = u.channel := by
    intro u
    by_cases hu : u.tid = tid <;> simp [hu, hf_chan]
  have hg_ph : ∀ u : Task, u.phase ≠ Phase.exited →
      ((if u.tid = tid then f u else u) : Task).phase ≠ Phase.exited := by
    intro u hu
    by_cases he : u.tid = tid <;> simp [he]
    · exact hf_ph u
    · exact hu
  constructor
  · show ((sys.tasks.map _).map Task.tid).Nodup
    rw [map_tid_of_preserve hg_tid]
    exact h.tidsNodup
  · intro u' hu'
    rcases List.mem_map.mp hu' with ⟨u, hu, rfl⟩
    show ((if u.tid = tid then f u else u) : Task).tid < sys.nextTid
    rw [hg_tid]
    exact h.tidBound u hu
  · exact h.setKeysNodup
  · exact h.setKeyBound
  · intro p hp i hi
    exact lift_owned_map hg_tid hg_set hg_ph (h.owned p hp i hi)
  · intro u' hu' hph'
    rcases List.mem_map.mp hu' with ⟨u, hu, rfl⟩
    show ((if u.tid = tid then f u else u) : Task).tid ∈
      getMembers ((if u.tid = tid then f u else u) : Task).setRef sys.sets
    rw [hg_tid, hg_set]
    by_cases he : u.tid = tid
    · have hut : u = t := getTask_unique h.tidsNodup hget hu he
      rw [hut] at he ⊢
      exact h.inSet t (getTask_mem hget) hne
    · refine h.inSet u hu ?_
      intro hex
      refine hph' ?_
      show ((if u.tid = tid then f u else u) : Task).phase = Phase.exited
      rw [if_neg he]
      exact hex
  · exact h.regKeysNodup
  · exact h.regNonempty
  · intro e he i hi
    exact lift_regOwned_map hg_tid hg_set hg_chan hg_ph (h.regOwned e he i hi)

/-- The exit of a live task — marking it exited, deleting it from the set its
closure holds, and deleting the channel key if that set became empty —
preserves the invariant (covers the empty-result branch, normal loop
completion and the cancellation break). -/
theorem sysInv_exitRemove {sys : Sys} {tid : Nat} {f : Task → Task} {t : Task}
    (h : SysInv sys) (hget : getTask sys tid = some t) (hne : t.phase ≠ Phase.exited)
    (hf_tid : ∀ u, (f u).tid = u.tid) (hf_set : ∀ u, (f u).setRef = u.setRef)
    (hf_chan : ∀ u, (f u).channel = u.channel) (hf_ph : ∀ u, (f u).phase = Phase.exited) :
    SysInv (removeSelf t (modifyTask tid f sys)) := by
  have ht_mem := getTask_mem hget
  have ht_tid := getTask_tid hget
  set g := (fun u : Task => if u.tid = tid then f u else u) with hg_def
  have hg_tid : ∀ u : Task, (g u).tid = u.tid := by
    intro u
    rw [hg_def]
    by_cases hu : u.tid = tid <;> simp [hu, hf_tid]
  set ms := getMembers t.setRef sys.sets with hms_def
  have htin : t.tid ∈ ms := h.inSet t ht_mem hne
  have hms_ne : ms ≠ [] := fun e => by rw [e] at htin; cases htin
  have hlk : alookup t.setRef sys.sets = some ms := alookup_of_members_ne_nil hms_ne
  have hsetmem : (t.setRef, ms) ∈ sys.sets := mem_of_alookup hlk
  set ms' := ms.filter (fun i => decide (i ≠ t.tid)) with hms2def
  have hmem_ms' : ∀ i, i ∈ ms' ↔ i ∈ ms ∧ i ≠ t.tid := by
    intro i
    rw [hms2def, List.mem_filter]
    simp
  have huniq : ∀ u ∈ sys.tasks, u.tid = t.tid → u = t := by
    intro u hu he
    exact getTask_unique h.tidsNodup hget hu (by rw [he, ht_tid])
  have hnotin : ∀ p ∈ sys.sets, p.1 ≠ t.setRef → t.tid ∉ p.2 := by
    intro p hp hpne hin
    rcases h.owned p hp _ hin with ⟨u, hu, h1, h2, _⟩
    rw [huniq u hu h1] at h2
    exact hpne h2.symm
  have hchan_of : ∀ e ∈ sys.registry, e.2 = t.setRef → e.1 = t.channel := by
    intro e he he2
    have hti : t.tid ∈ getMembers e.2 sys.sets := by rw [he2, ← hms_def]; exact htin
    rcases h.regOwned e he _ hti with ⟨u, hu, h1, h2, _, _⟩
    rw [huniq u hu h1] at h2
    exact h2.symm
  have hmem2 : ∀ sid : Nat, getMembers sid (aset t.setRef ms' sys.sets) =
      if sid = t.setRef then ms' else getMembers sid sys.sets := by
    intro sid
    by_cases hs : sid = t.setRef
    · rw [if_pos hs, hs]
      exact getMembers_aset_self _ _ _
    · rw [if_neg hs]
      exact getMembers_aset_ne hs _ _
  have hlift : ∀ (e : String × Nat) (i : Nat),
      (∃ u ∈ sys.tasks, u.tid = i ∧ u.channel = e.1 ∧ u.setRef = e.2 ∧
        u.phase ≠ Phase.exited) →
      i ≠ t.tid →
      ∃ u ∈ sys.tasks.map g, u.tid = i ∧ u.channel = e.1 ∧ u.setRef = e.2 ∧
        u.phase ≠ Phase.exited := by
    rintro e i ⟨u, hu, h1, h2, h3, h4⟩ hine
    have hgu : g u = u := by
      rw [hg_def]
      refine if_neg ?_
      intro he
      exact hine (by rw [← h1, he]; exact ht_tid.symm)
    refine ⟨g u, List.mem_map_of_mem g hu, ?_, ?_, ?_, ?_⟩
    · rw [hgu]; exact h1
    · rw [hgu]; exact h2
    · rw [hgu]; exact h3
    · rw [hgu]; exact h4
  have hii : ∀ (sid : Nat), sid ≠ t.setRef → ∀ i ∈ getMembers sid sys.sets, i ≠ t.tid := by
    intro sid hs i hi hit
    have hne' : getMembers sid sys.sets ≠ [] := by
      intro e
      rw [e] at hi
      cases hi
    have hl2 : alookup sid sys.sets = some (getMembers sid sys.sets) :=
      alookup_of_members_ne_nil hne'
    refine hnotin (sid, getMembers sid sys.sets) (mem_of_alookup hl2) hs ?_
    rw [← hit]
    exact hi
  refine ⟨?_, ?_, ?_, ?_, ?_, ?_, ?_, ?_, ?_⟩
  · show ((sys.tasks.map g).map Task.tid).Nodup
    rw [map_tid_of_preserve hg_tid]
    exact h.tidsNodup
  · intro u' hu'
    rcases List.mem_map.mp hu' with ⟨u, hu, rfl⟩
    show (g u).tid < sys.nextTid
    rw [hg_tid]
    exact h.tidBound u hu
  · show ((aset t.setRef ms' sys.sets).map Prod.fst).Nodup
    rw [keys_aset_of_mem ms' hlk]
    exact h.setKeysNodup
  · intro p hp
    rcases mem_aset hp with rfl | hp'
    · exact h.setKeyBound (t.setRef, ms) hsetmem
    · exact h.setKeyBound p hp'
  · intro p hp i hi
    show ∃ u ∈ sys.tasks.map g, u.tid = i ∧ u.setRef = p.1 ∧ u.phase ≠ Phase.exited
    rcases mem_aset_nodup h.setKeysNodup hp with rfl | ⟨hp', hpne⟩
    · have hi' := (hmem_ms' i).mp hi
      rcases h.owned (t.setRef, ms) hsetmem i hi'.1 with ⟨u, hu, h1, h2, h3⟩
      have hgu : g u = u := by
        rw [hg_def]
        refine if_neg ?_
        intro he
        exact hi'.2 (by rw [← h1, he]; exact ht_tid.symm)
      refine ⟨g u, List.mem_map_of_mem g hu, ?_, ?_, ?_⟩
      · rw [hgu]; exact h1
      · rw [hgu]; exact h2
      · rw [hgu]; exact h3
    · rcases h.owned p hp' i hi with ⟨u, hu, h1, h2, h3⟩
      have hine : i ≠ t.tid := by
        intro he
        rcases h.owned p hp' i hi with ⟨u2, hu2, g1, g2, _⟩
        rw [huniq u2 hu2 (g1.trans he)] at g2
        exact hpne g2.symm
      have hgu : g u = u := by
        rw [hg_def]
        refine if_neg ?_
        intro he
        exact hine (by rw [← h1, he]; exact ht_tid.symm)
      refine ⟨g u, List.mem_map_of_mem g hu, ?_, ?_, ?_⟩
      · rw [hgu]; exact h1
      · rw [hgu]; exact h2
      · rw [hgu]; exact h3
  · intro u' hu' hph'
    rcases List.mem_map.mp hu' with ⟨u, hu, rfl⟩
    show (g u).tid ∈ getMembers (g u).setRef (aset t.setRef ms' sys.sets)
    by_cases he : u.tid = tid
    · exfalso
      refine hph' ?_
      show (g u).phase = Phase.exited
      rw [hg_def]
      simp only [if_pos he]
      exact hf_ph u
    · have hgu : g u = u := by
        rw [hg_def]
        exact if_neg he
      rw [hgu]
      have hph'' : u.phase ≠ Phase.exited := by
        intro hx
        refine hph' ?_
        show (g u).phase = Phase.exited
        rw [hgu]
        exact hx
      have hin := h.inSet u hu hph''
      rw [hmem2]
      by_cases hs : u.setRef = t.setRef
      · rw [if_pos hs]
        refine (hmem_ms' u.tid).mpr ⟨by rw [hms_def, ← hs]; exact hin, ?_⟩
        rw [ht_tid]
        exact he
      · rw [if_neg hs]
        exact hin
  · show ((if ms'.isEmpty then aerase t.channel sys.registry else sys.registry).map
      Prod.fst).Nodup
    by_cases hie : ms'.isEmpty = true
    · rw [if_pos hie]
      exact List.Nodup.sublist (keys_aerase_sublist t.channel sys.registry) h.regKeysNodup
    · rw [if_neg hie]
      exact h.regKeysNodup
  · show ∀ e ∈ (if ms'.isEmpty then aerase t.channel sys.registry else sys.registry),
      getMembers e.2 (aset t.setRef ms' sys.sets) ≠ []
    intro e he
    by_cases hie : ms'.isEmpty = true
    · rw [if_pos hie] at he
      rcases mem_aerase.mp he with ⟨he', hech⟩
      have hene : e.2 ≠ t.setRef := fun h2 => hech (hchan_of e he' h2)
      rw [hmem2, if_neg hene]
      exact h.regNonempty e he'
    · rw [if_neg hie] at he
      rw [hmem2]
      by_cases hs : e.2 = t.setRef
      · rw [if_pos hs]
        intro hnil
        rw [hnil] at hie
        exact hie rfl
      · rw [if_neg hs]
        exact h.regNonempty e he
  · show ∀ e ∈ (if ms'.isEmpty then aerase t.channel sys.registry else sys.registry),
      ∀ i ∈ getMembers e.2 (aset t.setRef ms' sys.sets),
        ∃ u ∈ sys.tasks.map g, u.tid = i ∧ u.channel = e.1 ∧ u.setRef = e.2 ∧
          u.phase ≠ Phase.exited
    intro e he i hi
    by_cases hie : ms'.isEmpty = true
    · rw [if_pos hie] at he
      rcases mem_aerase.mp he with ⟨he', hech⟩
      have hene : e.2 ≠ t.setRef := fun h2 => hech (hchan_of e he' h2)
      rw [hmem2, if_neg hene] at hi
      exact hlift e i (h.regOwned e he' i hi) (hii e.2 hene i hi)
    · rw [if_neg hie] at he
      rw [hmem2] at hi
      by_cases hs : e.2 = t.setRef
      · rw [if_pos hs] at hi
        have hi' := (hmem_ms' i).mp hi
        have hold : i ∈ getMembers e.2 sys.sets := by
          rw [hs, ← hms_def]
          exact hi'.1
        exact hlift e i (h.regOwned e he i hold) hi'.2
      · rw [if_neg hs] at hi
        exact hlift e i (h.regOwned e he i hi) (hii e.2 hs i hi)

theorem nodup_append_singleton {γ : Type} {l : List γ} {a : γ}
    (h : l.Nodup) (ha : a ∉ l) : (l ++ [a]).Nodup := by
  rw [List.nodup_append]
  exact ⟨h, List.nodup_singleton a, fun x hx hx' => by
    rcases List.mem_singleton.mp hx' with rfl
    exact ha hx⟩

/-- Registering a new recall task preserves the invariant. -/
theorem sysInv_startRecall (c : String) {sys : Sys} (h : SysInv sys) :
    SysInv (startRecall c sys) := by
  have hfreshTid : ∀ u ∈ sys.tasks, u.tid ≠ sys.nextTid :=
    fun u hu => Nat.ne_of_lt (h.tidBound u hu)
  cases hl : alookup c sys.registry with
  | some sid =>
      rw [startRecall_some hl]
      have hmem_reg : (c, sid) ∈ sys.registry := mem_of_alookup hl
      have hms_ne : getMembers sid sys.sets ≠ [] := h.regNonempty (c, sid) hmem_reg
      have hlk : alookup sid sys.sets = some (getMembers sid sys.sets) :=
        alookup_of_members_ne_nil hms_ne
      have hsetmem : (sid, getMembers sid sys.sets) ∈ sys.sets := mem_of_alookup hlk
      have hmem2 : ∀ sid' : Nat,
          getMembers sid' (aset sid (setAdd sys.nextTid (getMembers sid sys.sets)) sys.sets) =
          if sid' = sid then setAdd sys.nextTid (getMembers sid sys.sets)
          else getMembers sid' sys.sets := by
        intro sid'
        by_cases hs : sid' = sid
        · rw [if_pos hs, hs]
          exact getMembers_aset_self _ _ _
        · rw [if_neg hs]
          exact getMembers_aset_ne hs _ _
      refine ⟨?_, ?_, ?_, ?_, ?_, ?_, ?_, ?_, ?_⟩
      · show ((sys.tasks ++ [newTask c sid sys.nextTid]).map Task.tid).Nodup
        rw [List.map_append]
        refine nodup_append_singleton h.tidsNodup ?_
        intro hx
        rcases List.mem_map.mp hx with ⟨u, hu, he⟩
        exact hfreshTid u hu he
      · intro u hu
        rcases List.mem_append.mp hu with hu' | hu'
        · exact Nat.lt_succ_of_lt (h.tidBound u hu')
        · rcases List.mem_singleton.mp hu' with rfl
          exact Nat.lt_succ_self _
      · show ((aset sid (setAdd sys.nextTid (getMembers sid sys.sets)) sys.sets).map
          Prod.fst).Nodup
        rw [keys_aset_of_mem _ hlk]
        exact h.setKeysNodup
      · intro p hp
        rcases mem_aset hp with rfl | hp'
        · exact h.setKeyBound (sid, getMembers sid sys.sets) hsetmem
        · exact h.setKeyBound p hp'
      · intro p hp i hi
        rcases mem_aset_nodup h.setKeysNodup hp with rfl | ⟨hp', hpne⟩
        · rcases mem_setAdd.mp hi with hi' | rfl
          · rcases h.owned (sid, getMembers sid sys.sets) hsetmem i hi' with ⟨u, hu, h1, h2, h3⟩
            exact ⟨u, List.mem_append_left _ hu, h1, h2, h3⟩
          · exact ⟨newTask c sid sys.nextTid,
              List.mem_append_right _ (List.mem_singleton.mpr rfl), rfl, rfl,
              fun e => Phase.noConfusion e⟩
        · rcases h.owned p hp' i hi with ⟨u, hu, h1, h2, h3⟩
          exact ⟨u, List.mem_append_left _ hu, h1, h2, h3⟩
      · intro u hu hph
        rcases List.mem_append.mp hu with hu' | hu'
        · have hin := h.inSet u hu' hph
          rw [hmem2]
          by_cases hs : u.setRef = sid
          · rw [if_pos hs]
            refine mem_setAdd.mpr (Or.inl ?_)
            rw [← hs]
            exact hin
          · rw [if_neg hs]
            exact hin
        · rcases List.mem_singleton.mp hu' with rfl
          rw [show (newTask c sid sys.nextTid).setRef = sid from rfl, hmem2, if_pos rfl]
          exact self_mem_setAdd _ _
      · show ((aset c sid sys.registry).map Prod.fst).Nodup
        rw [keys_aset_of_mem _ hl]
        exact h.regKeysNodup
      · intro e he
        rcases mem_aset he with rfl | he'
        · show getMembers sid _ ≠ []
          rw [hmem2, if_pos rfl]
          exact setAdd_ne_nil _ _
        · rw [hmem2]
          by_cases hs : e.2 = sid
          · rw [if_pos hs]
            exact setAdd_ne_nil _ _
          · rw [if_neg hs]
            exact h.regNonempty e he'
      · intro e he i hi
        rcases mem_aset_nodup h.regKeysNodup he with rfl | ⟨he', hene⟩
        · rw [show ((c, sid) : String × Nat).2 = sid from rfl, hmem2, if_pos rfl] at hi
          rcases mem_setAdd.mp hi with hi' | rfl
          · rcases h.regOwned (c, sid) hmem_reg i hi' with ⟨u, hu, h1, h2, h3, h4⟩
            exact ⟨u, List.mem_append_left _ hu, h1, h2, h3, h4⟩
          · exact ⟨newTask c sid sys.nextTid,
              List.mem_append_right _ (List.mem_singleton.mpr rfl), rfl, rfl, rfl,
              fun e => Phase.noConfusion e⟩
        · have hene2 : e.2 ≠ sid := by
            intro he2
            rcases List.exists_mem_of_ne_nil _ hms_ne with ⟨i₀, hi₀⟩
            rcases h.regOwned e he' i₀ (by rw [he2]; exact hi₀) with ⟨u, hu, h1, h2, _, _⟩
            rcases h.regOwned (c, sid) hmem_reg i₀ hi₀ with ⟨u', hu', g1, g2, _, _⟩
            have : u = u' := map_nodup_inj h.tidsNodup hu hu' (by rw [h1, g1])
            rw [this, g2] at h2
            exact hene h2.symm
          rw [hmem2, if_neg hene2] at hi
          rcases h.regOwned e he' i hi with ⟨u, hu, h1, h2, h3, h4⟩
          exact ⟨u, List.mem_append_left _ hu, h1, h2, h3, h4⟩
  | none =>
      rw [startRecall_none hl]
      have hsets_none : alookup sys.nextSet sys.sets = none := by
        rw [alookup_none_forall]
        exact fun p hp => Nat.ne_of_lt (h.setKeyBound p hp)
      have happ : sys.sets ++ [(sys.nextSet, [sys.nextTid])] =
          aset sys.nextSet [sys.nextTid] sys.sets :=
        (aset_append_of_none _ hsets_none).symm
      have hmem2 : ∀ sid' : Nat,
          getMembers sid' (sys.sets ++ [(sys.nextSet, [sys.nextTid])]) =
          if sid' = sys.nextSet then [sys.nextTid] else getMembers sid' sys.sets := by
        intro sid'
        rw [happ]
        by_cases hs : sid' = sys.nextSet
        · rw [if_pos hs, hs]
          exact getMembers_aset_self _ _ _
        · rw [if_neg hs]
          exact getMembers_aset_ne hs _ _
      have hc_not : ∀ e ∈ sys.registry, e.1 ≠ c := alookup_none_forall.mp hl
      have hreg2 : ∀ e ∈ sys.registry, e.2 ≠ sys.nextSet := by
        intro e he he2
        have := h.regNonempty e he
        rw [he2] at this
        exact this (by unfold getMembers; rw [hsets_none]; rfl)
      refine ⟨?_, ?_, ?_, ?_, ?_, ?_, ?_, ?_, ?_⟩
      · show ((sys.tasks ++ [newTask c sys.nextSet sys.nextTid]).map Task.tid).Nodup
        rw [List.map_append]
        refine nodup_append_singleton h.tidsNodup ?_
        intro hx
        rcases List.mem_map.mp hx with ⟨u, hu, he⟩
        exact hfreshTid u hu he
      · intro u hu
        rcases List.mem_append.mp hu with hu' | hu'
        · exact Nat.lt_succ_of_lt (h.tidBound u hu')
        · rcases List.mem_singleton.mp hu' with rfl
          exact Nat.lt_succ_self _
      · show ((sys.sets ++ [(sys.nextSet, [sys.nextTid])]).map Prod.fst).Nodup
        rw [List.map_append]
        refine nodup_append_singleton h.setKeysNodup ?_
        intro hx
        rcases List.mem_map.mp hx with ⟨p, hp, he⟩
        exact Nat.ne_of_lt (h.setKeyBound p hp) he
      · intro p hp
        rcases List.mem_append.mp hp with hp' | hp'
        · exact Nat.lt_succ_of_lt (h.setKeyBound p hp')
        · rcases List.mem_singleton.mp hp' with rfl
          exact Nat.lt_succ_self _
      · intro p hp i hi
        rcases List.mem_append.mp hp with hp' | hp'
        · rcases h.owned p hp' i hi with ⟨u, hu, h1, h2, h3⟩
          exact ⟨u, List.mem_append_left _ hu, h1, h2, h3⟩
        · rcases List.mem_singleton.mp hp' with rfl
          rcases List.mem_singleton.mp hi with rfl
          exact ⟨newTask c sys.nextSet sys.nextTid,
            List.mem_append_right _ (List.mem_singleton.mpr rfl), rfl, rfl,
            fun e => Phase.noConfusion e⟩
      · intro u hu hph
        rcases List.mem_append.mp hu with hu' | hu'
        · have hin := h.inSet u hu' hph
          have hsne : u.setRef ≠ sys.nextSet := by
            intro he
            rw [he] at hin
            rw [show getMembers sys.nextSet sys.sets = [] from by
              unfold getMembers; rw [hsets_none]; rfl] at hin
            cases hin
          rw [hmem2, if_neg hsne]
          exact hin
        · rcases List.mem_singleton.mp hu' with rfl
          rw [show (newTask c sys.nextSet sys.nextTid).setRef = sys.nextSet from rfl,
            hmem2, if_pos rfl]
          exact List.mem_singleton.mpr rfl
      · show ((aset c sys.nextSet sys.registry).map Prod.fst).Nodup
        rw [aset_append_of_none _ hl, List.map_append]
        refine nodup_append_singleton h.regKeysNodup ?_
        intro hx
        rcases List.mem_map.mp hx with ⟨e, he, hee⟩
        exact hc_not e he hee
      · intro e he
        rw [aset_append_of_none _ hl] at he
        rcases List.mem_append.mp he with he' | he'
        · rw [hmem2, if_neg (hreg2 e he')]
          exact h.regNonempty e he'
        · rcases List.mem_singleton.mp he' with rfl
          rw [show ((c, sys.nextSet) : String × Nat).2 = sys.nextSet from rfl, hmem2, if_pos rfl]
          intro hx
          cases hx
      · intro e he i hi
        rw [aset_append_of_none _ hl] at he
        rcases List.mem_append.mp he with he' | he'
        · rw [hmem2, if_neg (hreg2 e he')] at hi
          rcases h.regOwned e he' i hi with ⟨u, hu, h1, h2, h3, h4⟩
          exact ⟨u, List.mem_append_left _ hu, h1, h2, h3, h4⟩
        · rcases List.mem_singleton.mp he' with rfl
          rw [show ((c, sys.nextSet) : String × Nat).2 = sys.nextSet from rfl, hmem2,
            if_pos rfl] at hi
          rcases List.mem_singleton.mp hi with rfl
          exact ⟨newTask c sys.nextSet sys.nextTid,
            List.mem_append_right _ (List.mem_singleton.mpr rfl), rfl, rfl, rfl,
            fun e => Phase.noConfusion e⟩

theorem sysInv_queryDone (tid : Nat) (ids : List String) {sys : Sys} (h : SysInv sys) :
    SysInv (queryDone tid ids sys).1 := by
  cases hget : getTask sys tid with
  | none =>
      have hq : queryDone tid ids sys = (sys, QueryOutcome.proceed) := by
        simp only [queryDone, hget]
      rw [hq]
      exact h
  | some t =>
      by_cases hph : t.phase = Phase.querying
      · cases ids with
        | nil =>
            rw [queryDone_empty hget hph]
            exact sysInv_exitRemove h hget
              (by rw [hph]; exact fun e => Phase.noConfusion e)
              (fun u => rfl) (fun u => rfl) (fun u => rfl) (fun u => rfl)
        | cons id rest =>
            rw [queryDone_nonempty hget hph]
            exact @sysInv_modifyKeep sys tid
              (fun u => { u with total := (id :: rest).length, phase := Phase.looping (id :: rest) })
              t h hget
              (by rw [hph]; exact fun e => Phase.noConfusion e)
              (fun u => rfl) (fun u => rfl) (fun u => rfl)
              (fun u e => Phase.noConfusion e) sys.store
      · have hq : queryDone tid ids sys = (sys, QueryOutcome.proceed) := by
          simp only [queryDone, hget]
          rw [if_neg hph]
        rw [hq]
        exact h

theorem sysInv_iterate (delOk : String → String → Bool) (se : Bool) (tid : Nat)
    {sys : Sys} (h : SysInv sys) : SysInv (iterate delOk se tid sys).1 := by
  cases hget : getTask sys tid with
  | none =>
      have hq : iterate delOk se tid sys = (sys, []) := by simp only [iterate, hget]
      rw [hq]
      exact h
  | some t =>
      cases hph : t.phase with
      | querying =>
          have hq : iterate delOk se tid sys = (sys, []) := by simp only [iterate, hget, hph]
          rw [hq]
          exact h
      | exited =>
          rw [iterate_noop_exited hget hph]
          exact h
      | looping l =>
          cases l with
          | nil =>
              rw [iterate_finish hget hph]
              exact sysInv_exitRemove h hget
                (by rw [hph]; exact fun e => Phase.noConfusion e)
                (fun u => rfl) (fun u => rfl) (fun u => rfl) (fun u => rfl)
          | cons id rest =>
              by_cases hab : t.aborted = true
              · rw [@iterate_break delOk se tid sys t hget _ hph hab]
                exact sysInv_exitRemove h hget
                  (by rw [hph]; exact fun e => Phase.noConfusion e)
                  (fun u => rfl) (fun u => rfl) (fun u => rfl) (fun u => rfl)
              · have hab' : t.aborted = false := by
                  cases hb : t.aborted
                  · rfl
                  · exact absurd hb hab
                rw [@iterate_proc delOk se tid sys t id rest hget hph hab']
                exact @sysInv_modifyKeep sys tid
                  (fun u =>
                    { u with
                      phase := Phase.looping rest
                      success := u.success +
                        (recallMessages delOk se t.channel sys.store [id]).2.1
                      failed := u.failed +
                        (recallMessages delOk se t.channel sys.store [id]).2.2 })
                  t h hget
                  (by rw [hph]; exact fun e => Phase.noConfusion e)
                  (fun u => rfl) (fun u => rfl) (fun u => rfl)
                  (fun u e => Phase.noConfusion e)
                  (recallMessages delOk se t.channel sys.store [id]).1

theorem sysInv_stop (c : String) {sys : Sys} (h : SysInv sys) : SysInv (stop c sys).1 := by
  by_cases hts : channelTasks c sys = []
  · rw [stop_of_empty hts]
    exact h
  · rw [stop_of_nonempty hts]
    set g := (fun u : Task =>
      if u.tid ∈ channelTasks c sys then { u with aborted := true } else u) with hg_def
    have hg_tid : ∀ u : Task, (g u).tid = u.tid := by
      intro u
      rw [hg_def]
      by_cases hu : u.tid ∈ channelTasks c sys <;> simp [hu]
    have hg_set : ∀ u : Task, (g u).setRef = u.setRef := by
      intro u
      rw [hg_def]
      by_cases hu : u.tid ∈ channelTasks c sys <;> simp [hu]
    have hg_chan : ∀ u : Task, (g u).channel = u.channel := by
      intro u
      rw [hg_def]
      by_cases hu : u.tid ∈ channelTasks c sys <;> simp [hu]
    have hg_ph : ∀ u : Task, (g u).phase = u.phase := by
      intro u
      rw [hg_def]
      by_cases hu : u.tid ∈ channelTasks c sys <;> simp [hu]
    refine ⟨?_, ?_, ?_, ?_, ?_, ?_, ?_, ?_, ?_⟩
    · show ((sys.tasks.map g).map Task.tid).Nodup
      rw [map_tid_of_preserve hg_tid]
      exact h.tidsNodup
    · intro u' hu'
      rcases List.mem_map.mp hu' with ⟨u, hu, rfl⟩
      show (g u).tid < sys.nextTid
      rw [hg_tid]
      exact h.tidBound u hu
    · exact h.setKeysNodup
    · exact h.setKeyBound
    · intro p hp i hi
      exact lift_owned_map hg_tid hg_set
        (fun u hu => by rw [hg_ph]; exact hu) (h.owned p hp i hi)
    · intro u' hu' hph'
      rcases List.mem_map.mp hu' with ⟨u, hu, rfl⟩
      show (g u).tid ∈ getMembers (g u).setRef sys.sets
      rw [hg_tid, hg_set]
      refine h.inSet u hu ?_
      intro hx
      refine hph' ?_
      show (g u).phase = Phase.exited
      rw [hg_ph]
      exact hx
    · show ((aerase c sys.registry).map Prod.fst).Nodup
      exact List.Nodup.sublist (keys_aerase_sublist c sys.registry) h.regKeysNodup
    · intro e he
      exact h.regNonempty e (mem_aerase.mp he).1
    · intro e he i hi
      exact lift_regOwned_map hg_tid hg_set hg_chan
        (fun u hu => by rw [hg_ph]; exact hu)
        (h.regOwned e (mem_aerase.mp he).1 i hi)

/-- C4 (amended): what every operation does preserve is the registry
well-formedness `SysInv` — a channelId key exists in the registry only while
its set is non-empty (an empty set is removed immediately, never retained),
and every task visible in a registered set is a task whose execution loop has
not exited.  The other direction of the original claim — that a task stays in
its channel's registered set *until* its loop exits — is false: `recall.stop`
clears the whole channel entry while the tasks' loops are still running (see
the counterexample). -/
theorem claim_C4 (sys : Sys) (c : String) (tid : Nat) (ids : List String)
    (delOk : String → String → Bool) (se : Bool) (h : SysInv sys) :
    SysInv (startRecall c sys) ∧ SysInv (queryDone tid ids sys).1 ∧
    SysInv (iterate delOk se tid sys).1 ∧ SysInv (stop c sys).1 :=
  ⟨sysInv_startRecall c h, sysInv_queryDone tid ids h,
   sysInv_iterate delOk se tid h, sysInv_stop c h⟩

theorem claim_C4_witness :
    SysInv sysW2 ∧
      (SysInv (startRecall ("c") sysW2) ∧ SysInv (queryDone 0 [("m9")] sysW2).1 ∧
       SysInv (iterate delOkW true 0 sysW2).1 ∧ SysInv (stop ("c") sysW2).1) :=
  ⟨by decide, claim_C4 sysW2 ("c") 0 [("m9")] delOkW true (by decide)⟩

def chanX : String := "X"

/-- Initial state: no tasks, no sets, empty registry. -/
def sys0 : Sys :=
  { registry := [], sets := [], tasks := [], store := [], nextTid := 0, nextSet := 0 }

/-- A recall request is registered for channel X (task 0). -/
def sysA : Sys := startRecall chanX sys0

/-- Its candidate query returns two ids; the task enters its loop. -/
def sysB : Sys := (queryDone 0 [("m1"), ("m2")] sysA).1

/-- `recall.stop` is issued while the task is mid-loop. -/
def sysC : Sys := (stop chanX sysB).1

/-- C4 counterexample: after `stop`, task 0's loop has not exited (it is still
in `looping` phase, merely flagged aborted) yet the registry holds no entry at
all — the task is no longer a member of its channel's set, contradicting the
claimed invariant that a task stays in the registry from creation until its
own loop exits. -/
theorem claim_C4_counterexample :
    (getTask sysC 0).map Task.phase = some (Phase.looping [("m1"), ("m2")]) ∧
    (getTask sysC 0).map Task.aborted = some true ∧
    sysC.registry = [] := by
  decide

end BatchRecall
